import Mathlib

/-!
# Maze-walk game: a shallow embedding of `main.go`

The game core of `main.go` (grid generation, player placement, the move
transition) is embedded as pure Lean functions and the properties of the
specification are proved about them.

Modelling conventions.

* Go `int` is the 64-bit two's complement integer: a value is an `Int`, and
  `wrapInt` reduces the result of an addition into `[-2^63, 2^63)`.  The step
  counter is incremented through `wrapInt`.  The candidate coordinates are kept
  as the exact sums: for values a Go `int` can hold, the bounds test of `TryMove`
  gives the same answer on the exact and on the wrapped sum, and an in-bounds
  candidate is not changed by wrapping (`offGrid_test_wrap`).
* `make` stops the program for a negative length and for a length the runtime
  cannot allocate; the largest grid size the environment can allocate is the
  parameter `lim` of `generateGrid`.
* Go `rune` is `Char`; `[][]rune` is `List (List Char)`.
* `Direction` is an `int` type in Go, so it is `Int` here; the four declared
  constants are `Up`, `Right`, `Down`, `Left`, and `dirDelta` keeps its
  `default` branch.
* `float64` is `F64`: a finite value (as a rational), one of the two infinities,
  or NaN, with the IEEE ordered comparison.  The code only compares floats.
* The shared random source is passed explicitly: `draws k` is what the `k`-th
  call of `rand.Float64` returns, and each `rand.Intn n` receives a raw natural
  that is reduced into `[0, n)`.
* A method that mutates `*Game` becomes a function returning the state left in
  memory, together with a flag telling whether a runtime panic (an index out
  of range) interrupted it.
-/

namespace RuneSim

/-! ## Data model -/

/-- Go `type Direction int`. -/
abbrev Direction := Int

/-- Constant `Up` (iota 0). -/
def Up : Direction := 0
/-- Constant `Right` (iota 1). -/
def Right : Direction := 1
/-- Constant `Down` (iota 2). -/
def Down : Direction := 2
/-- Constant `Left` (iota 3). -/
def Left : Direction := 3

/-- The four declared direction constants. -/
def Direction.Named (d : Direction) : Prop :=
  d = Up ∨ d = Right ∨ d = Down ∨ d = Left

instance (d : Direction) : Decidable (Direction.Named d) := by
  unfold Direction.Named; infer_instance

/-- Go `type Point struct { R int; C int }`. -/
structure Point where
  R : Int
  C : Int
  deriving DecidableEq

/-- Go `func dirDelta(d Direction) (int, int)`. -/
def dirDelta (d : Direction) : Int × Int :=
  if d = Up then (-1, 0)
  else if d = Right then (0, 1)
  else if d = Down then (1, 0)
  else if d = Left then (0, -1)
  else (0, 0)

/-- Go `type Game struct`. -/
structure Game where
  Grid : List (List Char)
  Player : Point
  Facing : Direction
  Steps : Int
  Won : Bool
  Rows : Int
  Cols : Int
  deriving DecidableEq

/-- The state a mutating method leaves behind, and whether it ended in a
runtime panic. -/
structure Outcome where
  state : Game
  panicked : Bool
  deriving DecidableEq

/-- The read `grid[r][c]` for non-negative `r`, `c`: `none` is Go's
index-out-of-range panic. -/
def cellAt (grid : List (List Char)) (r c : Int) : Option Char :=
  if r < 0 ∨ c < 0 then none
  else
    match grid.get? r.toNat with
    | none => none
    | some row => row.get? c.toNat

/-! ## Machine integers -/

/-- The smallest value of Go `int` on a 64-bit platform, `-2^63`. -/
def minInt : Int := -9223372036854775808

/-- The largest value of Go `int` on a 64-bit platform, `2^63 - 1`. -/
def maxInt : Int := 9223372036854775807

/-- The result of a Go `int` operation whose exact value is `x`: reduced modulo `2^64` into
`[-2^63, 2^63)`. -/
def wrapInt (x : Int) : Int :=
  (x + 9223372036854775808) % 18446744073709551616 - 9223372036854775808

/-- A value that a Go `int` can hold. -/
def IsInt64 (x : Int) : Prop := minInt ≤ x ∧ x ≤ maxInt

instance (x : Int) : Decidable (IsInt64 x) := by
  unfold IsInt64; infer_instance

/-! ## The move transition -/

/-- Go `func (g *Game) TryMove(dir Direction)`.  `g.Steps++` wraps; see the header for the
candidate coordinates. -/
def TryMove (g : Game) (dir : Direction) : Outcome :=
  let dr := (dirDelta dir).1
  let dc := (dirDelta dir).2
  let nr := g.Player.R + dr
  let nc := g.Player.C + dc
  let g1 := { g with Facing := dir }
  if nr < 0 ∨ nr ≥ g1.Rows ∨ nc < 0 ∨ nc ≥ g1.Cols then
    { state := { g1 with Steps := wrapInt (g1.Steps + 1), Won := true }, panicked := false }
  else
    match cellAt g1.Grid nr nc with
    | none => { state := g1, panicked := true }
    | some ch =>
      if ch = '#' then
        { state := g1, panicked := false }
      else
        { state := { g1 with Player := { R := nr, C := nc }, Steps := wrapInt (g1.Steps + 1) },
          panicked := false }

/-- The candidate cell of a move: `Player + dirDelta dir`. -/
def candidate (g : Game) (dir : Direction) : Point :=
  { R := g.Player.R + (dirDelta dir).1, C := g.Player.C + (dirDelta dir).2 }

/-- A point lies in `[0, Rows) x [0, Cols)`. -/
def InBounds (g : Game) (p : Point) : Prop :=
  0 ≤ p.R ∧ p.R < g.Rows ∧ 0 ≤ p.C ∧ p.C < g.Cols

instance (g : Game) (p : Point) : Decidable (InBounds g p) := by
  unfold InBounds; infer_instance

/-- The grid is `Rows x Cols` and the player is in bounds. -/
def WellFormed (g : Game) : Prop :=
  (g.Grid.length : Int) = g.Rows ∧ (∀ row ∈ g.Grid, (row.length : Int) = g.Cols) ∧
    InBounds g g.Player

instance (g : Game) : Decidable (WellFormed g) := by
  unfold WellFormed; infer_instance

/-- A sequence of `TryMove` calls, applied from left to right. -/
def run (g : Game) (ds : List Direction) : Game :=
  ds.foldl (fun s d => (TryMove s d).state) g

/-! ## Floating point and the random source -/

/-- Go `float64`, as far as comparison sees it: NaN, the two infinities, or a
finite value. -/
inductive F64 where
  | nan
  | negInf
  | posInf
  | fin (q : ℚ)
  deriving DecidableEq

/-- The IEEE comparison `a < b` on `float64`: false as soon as one side is NaN. -/
def F64.lt : F64 → F64 → Bool
  | .nan, _ => false
  | _, .nan => false
  | .negInf, .negInf => false
  | .negInf, _ => true
  | .posInf, _ => false
  | .fin _, .negInf => false
  | .fin _, .posInf => true
  | .fin a, .fin b => decide (a < b)

/-- The float constant `0`. -/
def F64.zero : F64 := .fin 0

/-- The float constant `1`. -/
def F64.one : F64 := .fin 1

/-- A value that `rand.Float64` may return: finite and in `[0, 1)`. -/
def F64.InUnit : F64 → Prop
  | .fin q => 0 ≤ q ∧ q < 1
  | _ => False

/-- Go `rand.Intn(n)` for `n > 0`: the raw output of the source reduced into
`[0, n)`. -/
def Intn (raw n : Nat) : Nat := raw % n

/-! ## Grid generation and player placement -/

/-- The two `if` statements that open `generateGrid`: the density clamp. -/
def clampDensity (density : F64) : F64 :=
  let density := if F64.lt density F64.zero then F64.zero else density
  if F64.lt F64.one density then F64.one else density

/-- The inner loop of `generateGrid`: `n` cells, drawing from position `k` of the
random source onwards. -/
def genRow (density : F64) (draws : Nat → F64) : Nat → Nat → List Char
  | 0, _ => []
  | n + 1, k =>
    (if F64.lt (draws k) density then '#' else '.') :: genRow density draws n (k + 1)

/-- The outer loop of `generateGrid`: `m` rows of `size` cells, the first one
drawing from position `k` onwards. -/
def genRows (density : F64) (draws : Nat → F64) (size : Nat) : Nat → Nat → List (List Char)
  | 0, _ => []
  | m + 1, k => genRow density draws size k :: genRows density draws size m (k + size)

/-- Go `func generateGrid(size int, density float64) [][]rune`.  `none` is the program
stopped inside `make`: the panic on a negative length, and the panic (`len out of range`) or
memory exhaustion on a length the runtime cannot allocate; `lim` is the largest size the
environment can allocate a grid for. -/
def generateGrid (lim : Nat) (size : Int) (density : F64) (draws : Nat → F64) :
    Option (List (List Char)) :=
  if size < 0 ∨ size > (lim : Int) then none
  else some (genRows (clampDensity density) draws size.toNat size.toNat 0)

/-- The inner loop of `emptyCells` over one row, from column `c` onwards. -/
def emptyCellsRow (r : Nat) : List Char → Nat → List Point
  | [], _ => []
  | ch :: rest, c =>
    if ch = '.' then { R := r, C := c } :: emptyCellsRow r rest (c + 1)
    else emptyCellsRow r rest (c + 1)

/-- The outer loop of `emptyCells`, from row `r` onwards. -/
def emptyCellsFrom : List (List Char) → Nat → List Point
  | [], _ => []
  | row :: rest, r => emptyCellsRow r row 0 ++ emptyCellsFrom rest (r + 1)

/-- Go `func emptyCells(grid [][]rune) []Point`. -/
def emptyCells (grid : List (List Char)) : List Point :=
  emptyCellsFrom grid 0

/-- The ways `newGame` can fail: its two errors, and a runtime panic. -/
inductive Failure where
  | invalidGridSize
  | noEmptyCells
  | runtimePanic
  deriving DecidableEq

/-- Go `func randomPlayerPlacement(grid [][]rune) (Point, Direction, error)`; `pick`
and `face` are the raw outputs behind the two `rand.Intn` calls. -/
def randomPlayerPlacement (grid : List (List Char)) (pick face : Nat) :
    Except Failure (Point × Direction) :=
  let empties := emptyCells grid
  if empties.length = 0 then .error .noEmptyCells
  else
    match empties.get? (Intn pick empties.length) with
    | none => .error .runtimePanic
    | some pos => .ok (pos, ((Intn face 4 : Nat) : Int))

/-- Go `func newGame(size int, density float64) (*Game, error)`. -/
def newGame (lim : Nat) (size : Int) (density : F64) (draws : Nat → F64) (pick face : Nat) :
    Except Failure Game :=
  if size ≤ 0 then .error .invalidGridSize
  else
    match generateGrid lim size density draws with
    | none => .error .runtimePanic
    | some grid =>
      match randomPlayerPlacement grid pick face with
      | .error e => .error e
      | .ok (pos, facing) =>
        .ok { Grid := grid, Player := pos, Facing := facing, Steps := 0, Won := false,
              Rows := size, Cols := size }

/-- The invariant of play: the state is well formed, every cell of the grid is `'#'` or
`'.'`, and the player stands on an open cell. -/
def Inv (g : Game) : Prop :=
  WellFormed g ∧ (∀ row ∈ g.Grid, ∀ ch ∈ row, ch = '#' ∨ ch = '.') ∧
    cellAt g.Grid g.Player.R g.Player.C = some '.'

/-! ## Input mapping and rendering -/

/-- Go `func parseCommandToDir(ch byte) (Direction, bool)`; a byte is its numeric value. -/
def parseCommandToDir (ch : Nat) : Direction × Bool :=
  if ch = 'w'.toNat ∨ ch = 'W'.toNat then (Up, true)
  else if ch = 'd'.toNat ∨ ch = 'D'.toNat then (Right, true)
  else if ch = 's'.toNat ∨ ch = 'S'.toNat then (Down, true)
  else if ch = 'a'.toNat ∨ ch = 'A'.toNat then (Left, true)
  else (Up, false)

/-- Go `var dirRunes = map[Direction]rune`, read as `dirRunes[d]`: a key that is not in
the map reads as the zero rune. -/
def dirRunes (d : Direction) : Char :=
  if d = Up then '^'
  else if d = Right then '>'
  else if d = Down then 'v'
  else if d = Left then '<'
  else Char.ofNat 0

/-- The slice `dst` after Go's built-in `copy(dst, src)`. -/
def copyInto (dst src : List Char) : List Char :=
  src.take dst.length ++ dst.drop src.length

/-- What `render` prints: the rows handed to `Println` (as runes) and the step count of
the closing `Printf`; `footer = none` when a runtime panic stopped the method before. -/
structure Screen where
  rows : List (List Char)
  footer : Option Int
  deriving DecidableEq

/-- The loop of `render` over the rows of the grid, from row index `r` onwards. -/
def renderRows (g : Game) : List (List Char) → Nat → Screen
  | [], _ => { rows := [], footer := some g.Steps }
  | row :: rest, r =>
    if g.Cols < 0 then { rows := [], footer := none }
    else
      let line := copyInto (List.replicate g.Cols.toNat (Char.ofNat 0)) row
      if (r : Int) = g.Player.R then
        if g.Player.C < 0 ∨ g.Player.C ≥ g.Cols then { rows := [], footer := none }
        else
          { rows := line.set g.Player.C.toNat (dirRunes g.Facing) :: (renderRows g rest (r + 1)).rows,
            footer := (renderRows g rest (r + 1)).footer }
      else
        { rows := line :: (renderRows g rest (r + 1)).rows,
          footer := (renderRows g rest (r + 1)).footer }

/-- Go `func (g *Game) render()`. -/
def render (g : Game) : Screen :=
  renderRows g g.Grid 0

/-! ## Notions used by the properties -/

/-- The direction facing the other way; a value that is no declared direction is kept. -/
def opposite (d : Direction) : Direction :=
  if d = Up then Down
  else if d = Right then Left
  else if d = Down then Up
  else if d = Left then Right
  else d

/-- The Manhattan distance between two points. -/
def manhattan (p q : Point) : Int :=
  |p.R - q.R| + |p.C - q.C|

/-- Row-major order on points: by row, then by column. -/
def Point.before (p q : Point) : Prop :=
  p.R < q.R ∨ (p.R = q.R ∧ p.C < q.C)

instance (p q : Point) : Decidable (Point.before p q) := by
  unfold Point.before; infer_instance

/-! ## Sample states -/

/-- A 3x3 grid with every cell open and the player in the middle, facing up. -/
def open3 : Game :=
  { Grid := [['.', '.', '.'], ['.', '.', '.'], ['.', '.', '.']],
    Player := { R := 1, C := 1 }, Facing := Up, Steps := 0, Won := false, Rows := 3, Cols := 3 }

/-- A 2x2 grid whose cell (0,1) is blocked, the player at (0,0). -/
def wall2 : Game :=
  { Grid := [['.', '#'], ['.', '.']],
    Player := { R := 0, C := 0 }, Facing := Up, Steps := 0, Won := false, Rows := 2, Cols := 2 }

/-- The state `open3` with the step counter at the largest `int`. -/
def open3Max : Game := { open3 with Steps := maxInt }

/-- The state `wall2` with the step counter at the largest `int`. -/
def wall2Max : Game := { wall2 with Steps := maxInt }

/-- The walk Down, Up repeated `k` times. -/
def cycles : Nat → List Direction
  | 0 => []
  | k + 1 => Down :: Up :: cycles k

/-- The walk Down, Up repeated `2^62 - 1` times: `2^63 - 2` calls. -/
def longWalk : List Direction := cycles 4611686018427387903

/-- The 1x1 game that `newGame lim64 1 F64.zero zeros 0 0` returns. -/
def game1 : Game :=
  { Grid := [['.']], Player := { R := 0, C := 0 }, Facing := Up, Steps := 0, Won := false,
    Rows := 1, Cols := 1 }

/-- The largest length `make([][]rune, n)` accepts on a 64-bit platform: `2^48` bytes of
24-byte slice headers; used as the allocation limit of the sample runs. -/
def lim64 : Nat := 11728124029610

/-- A random source whose every float draw is one half. -/
def halves : Nat → F64 := fun _ => .fin ⟨1, 2, by decide, by decide⟩

/-- A random source whose every float draw is zero. -/
def zeros : Nat → F64 := fun _ => .fin 0

/-- The density one quarter. -/
def quarter : F64 := .fin ⟨1, 4, by decide, by decide⟩

/-- The 2x2 game that `newGame lim64 2 quarter halves 5 6` returns. -/
def start2 : Game :=
  { Grid := [['.', '.'], ['.', '.']], Player := { R := 0, C := 1 }, Facing := Down,
    Steps := 0, Won := false, Rows := 2, Cols := 2 }

/-! ## The move transition: case analysis -/

theorem dirDelta_cases (d : Direction) :
    dirDelta d = (-1, 0) ∨ dirDelta d = (0, 1) ∨ dirDelta d = (1, 0) ∨ dirDelta d = (0, -1) ∨
      dirDelta d = (0, 0) := by
  unfold dirDelta
  split_ifs <;> simp

theorem dirDelta_named (d : Direction) (h : Direction.Named d) :
    dirDelta d = (-1, 0) ∨ dirDelta d = (0, 1) ∨ dirDelta d = (1, 0) ∨ dirDelta d = (0, -1) := by
  rcases h with h | h | h | h <;> subst h <;> simp [dirDelta, Up, Right, Down, Left]

/-- The off-grid branch of `TryMove`. -/
theorem TryMove_off (g : Game) (d : Direction) (h : ¬ InBounds g (candidate g d)) :
    TryMove g d =
      { state := { g with Facing := d, Steps := wrapInt (g.Steps + 1), Won := true },
        panicked := false } := by
  have h' : g.Player.R + (dirDelta d).1 < 0 ∨ g.Player.R + (dirDelta d).1 ≥ g.Rows ∨
      g.Player.C + (dirDelta d).2 < 0 ∨ g.Player.C + (dirDelta d).2 ≥ g.Cols := by
    simp only [InBounds, candidate] at h
    omega
  simp only [TryMove]
  rw [if_pos h']

/-- The in-bounds branches of `TryMove`. -/
theorem TryMove_in (g : Game) (d : Direction) (h : InBounds g (candidate g d)) :
    TryMove g d =
      match cellAt g.Grid (candidate g d).R (candidate g d).C with
      | none => { state := { g with Facing := d }, panicked := true }
      | some ch =>
        if ch = '#' then { state := { g with Facing := d }, panicked := false }
        else
          { state :=
              { g with Facing := d, Player := candidate g d, Steps := wrapInt (g.Steps + 1) },
            panicked := false } := by
  have h' : ¬ (g.Player.R + (dirDelta d).1 < 0 ∨ g.Player.R + (dirDelta d).1 ≥ g.Rows ∨
      g.Player.C + (dirDelta d).2 < 0 ∨ g.Player.C + (dirDelta d).2 ≥ g.Cols) := by
    simp only [InBounds, candidate] at h
    omega
  simp only [TryMove]
  rw [if_neg h']
  rfl

/-- In a grid of the declared dimensions every in-bounds cell can be read. -/
theorem cellAt_isSome (grid : List (List Char)) (rows cols r c : Int)
    (hlen : (grid.length : Int) = rows) (hrow : ∀ row ∈ grid, (row.length : Int) = cols)
    (hr : 0 ≤ r ∧ r < rows) (hc : 0 ≤ c ∧ c < cols) :
    ∃ ch, cellAt grid r c = some ch := by
  have h1 : r.toNat < grid.length := by omega
  have hget : grid.get? r.toNat = some (grid.get ⟨r.toNat, h1⟩) := List.get?_eq_get h1
  have hmem : grid.get ⟨r.toNat, h1⟩ ∈ grid := List.get_mem _ _ _
  have h2 : c.toNat < (grid.get ⟨r.toNat, h1⟩).length := by
    have := hrow _ hmem
    omega
  refine ⟨(grid.get ⟨r.toNat, h1⟩).get ⟨c.toNat, h2⟩, ?_⟩
  have hn : ¬ (r < 0 ∨ c < 0) := by omega
  simp only [cellAt, if_neg hn, hget]
  exact List.get?_eq_get h2

/-- For a well-formed state every in-bounds candidate cell can be read. -/
theorem cellAt_candidate (g : Game) (d : Direction) (hwf : WellFormed g)
    (hin : InBounds g (candidate g d)) :
    ∃ ch, cellAt g.Grid (candidate g d).R (candidate g d).C = some ch :=
  cellAt_isSome g.Grid g.Rows g.Cols _ _ hwf.1 hwf.2.1 ⟨hin.1, hin.2.1⟩ ⟨hin.2.2.1, hin.2.2.2⟩

/-- An addition whose exact result a Go `int` can hold is not changed by wrapping. -/
theorem wrapInt_eq (x : Int) (h : IsInt64 x) : wrapInt x = x := by
  unfold IsInt64 minInt maxInt at h
  unfold wrapInt
  omega

/-- The result of a Go `int` operation is a Go `int`. -/
theorem wrapInt_isInt64 (x : Int) : IsInt64 (wrapInt x) := by
  unfold IsInt64 minInt maxInt wrapInt
  omega

/-- The increment of the largest `int` wraps to the smallest. -/
theorem wrapInt_maxInt_succ : wrapInt (maxInt + 1) = minInt := by decide

/-- For coordinates and dimensions a Go `int` can hold, the bounds test of `TryMove` gives the
same answer on the wrapped sums `nr`, `nc` the code computes as on the exact sums, and an
in-bounds candidate is the exact sum. -/
theorem offGrid_test_wrap (g : Game) (d : Direction) (hR : IsInt64 g.Player.R)
    (hC : IsInt64 g.Player.C) (hrows : IsInt64 g.Rows) (hcols : IsInt64 g.Cols) :
    ((wrapInt (g.Player.R + (dirDelta d).1) < 0 ∨ wrapInt (g.Player.R + (dirDelta d).1) ≥ g.Rows ∨
        wrapInt (g.Player.C + (dirDelta d).2) < 0 ∨
        wrapInt (g.Player.C + (dirDelta d).2) ≥ g.Cols) ↔
      ¬ InBounds g (candidate g d)) ∧
    (InBounds g (candidate g d) →
      wrapInt (g.Player.R + (dirDelta d).1) = (candidate g d).R ∧
      wrapInt (g.Player.C + (dirDelta d).2) = (candidate g d).C) := by
  unfold IsInt64 minInt maxInt at hR hC hrows hcols
  simp only [InBounds, candidate, wrapInt]
  rcases dirDelta_cases d with h | h | h | h | h <;> rw [h] <;> simp only <;>
    refine ⟨?_, ?_⟩ <;> omega

/-- One call of `TryMove` keeps the step counter or increments it, with wrap-around. -/
theorem TryMove_steps_wrap (g : Game) (d : Direction) :
    (TryMove g d).state.Steps = g.Steps ∨ (TryMove g d).state.Steps = wrapInt (g.Steps + 1) := by
  by_cases h : InBounds g (candidate g d)
  · rw [TryMove_in g d h]
    split
    · exact Or.inl rfl
    · split_ifs
      · exact Or.inl rfl
      · exact Or.inr rfl
  · rw [TryMove_off g d h]
    exact Or.inr rfl

/-- Below the largest `int`, one call of `TryMove` keeps the step counter or adds one to
it. -/
theorem TryMove_steps (g : Game) (d : Direction) (hlo : minInt ≤ g.Steps)
    (hhi : g.Steps < maxInt) :
    (TryMove g d).state.Steps = g.Steps ∨ (TryMove g d).state.Steps = g.Steps + 1 := by
  have hw : wrapInt (g.Steps + 1) = g.Steps + 1 :=
    wrapInt_eq _ ⟨by unfold minInt at *; omega, by omega⟩
  rw [← hw]
  exact TryMove_steps_wrap g d

/-- One call of `TryMove` never clears `Won`. -/
theorem TryMove_won_of_won (g : Game) (d : Direction) (h : g.Won = true) :
    (TryMove g d).state.Won = true := by
  by_cases hin : InBounds g (candidate g d)
  · rw [TryMove_in g d hin]
    split
    · exact h
    · split_ifs
      · exact h
      · exact h
  · rw [TryMove_off g d hin]

theorem run_nil (g : Game) : run g [] = g := rfl

theorem run_cons (g : Game) (d : Direction) (ds : List Direction) :
    run g (d :: ds) = run (TryMove g d).state ds := rfl

theorem run_append (g : Game) (ds es : List Direction) :
    run g (ds ++ es) = run (run g ds) es := by
  simp [run, List.foldl_append]

/-- A sequence of calls never clears `Won`. -/
theorem run_won_of_won (ds : List Direction) :
    ∀ g : Game, g.Won = true → (run g ds).Won = true := by
  induction ds with
  | nil => intro g h; exact h
  | cons d ds ih =>
    intro g h
    rw [run_cons]
    exact ih _ (TryMove_won_of_won g d h)

/-- While the counter cannot reach the largest `int`, a sequence of calls never lowers it
and adds at most one step for each call. -/
theorem run_steps_mono (ds : List Direction) :
    ∀ g : Game, 0 ≤ g.Steps → g.Steps + ds.length ≤ maxInt →
      g.Steps ≤ (run g ds).Steps ∧ (run g ds).Steps ≤ g.Steps + ds.length := by
  induction ds with
  | nil => intro g _ _; simp [run_nil]
  | cons d ds ih =>
    intro g h0 hlen
    rw [run_cons]
    have h5 : ((d :: ds).length : Int) = ds.length + 1 := by simp
    have hstep := TryMove_steps g d (by unfold minInt; omega) (by omega)
    have h1 := ih (TryMove g d).state (by omega) (by omega)
    omega

/-- A game returned by `newGame` has the fields of its struct literal. -/
theorem newGame_ok (lim : Nat) (size : Int) (density : F64) (draws : Nat → F64) (pick face : Nat)
    (g : Game) (h : newGame lim size density draws pick face = .ok g) :
    0 < size ∧ generateGrid lim size density draws = some g.Grid ∧
      randomPlayerPlacement g.Grid pick face = .ok (g.Player, g.Facing) ∧
      g.Steps = 0 ∧ g.Won = false ∧ g.Rows = size ∧ g.Cols = size := by
  unfold newGame at h
  split_ifs at h with hs
  split at h
  · cases h
  · rename_i grid hgrid
    split at h
    · cases h
    · rename_i pos facing hplace
      cases h
      exact ⟨by omega, hgrid, hplace, rfl, rfl, rfl, rfl⟩

/-! ## Grid generation and placement: lemmas -/

theorem genRow_length (density : F64) (draws : Nat → F64) :
    ∀ n k : Nat, (genRow density draws n k).length = n := by
  intro n
  induction n with
  | zero => intro k; rfl
  | succ n ih => intro k; simp [genRow, ih]

/-- A cell of a generated row is blocked when its draw is below the density and open
otherwise. -/
theorem genRow_mem (density : F64) (draws : Nat → F64) :
    ∀ (n k : Nat) (ch : Char), ch ∈ genRow density draws n k →
      ∃ j : Nat, j < n ∧ ch = (if F64.lt (draws (k + j)) density then '#' else '.') := by
  intro n
  induction n with
  | zero => intro k ch h; simp [genRow] at h
  | succ n ih =>
    intro k ch h
    simp only [genRow, List.mem_cons] at h
    rcases h with h | h
    · exact ⟨0, by omega, by simpa using h⟩
    · obtain ⟨j, hj, hch⟩ := ih (k + 1) ch h
      refine ⟨j + 1, by omega, ?_⟩
      rw [hch, show k + 1 + j = k + (j + 1) by omega]

theorem genRows_length (density : F64) (draws : Nat → F64) (size : Nat) :
    ∀ m k : Nat, (genRows density draws size m k).length = m := by
  intro m
  induction m with
  | zero => intro k; rfl
  | succ m ih => intro k; simp [genRows, ih]

/-- Every row of a generated grid is a generated row. -/
theorem genRows_mem (density : F64) (draws : Nat → F64) (size : Nat) :
    ∀ (m k : Nat) (row : List Char), row ∈ genRows density draws size m k →
      ∃ k1 : Nat, row = genRow density draws size k1 := by
  intro m
  induction m with
  | zero => intro k row h; simp [genRows] at h
  | succ m ih =>
    intro k row h
    simp only [genRows, List.mem_cons] at h
    rcases h with h | h
    · exact ⟨k, h⟩
    · exact ih (k + size) row h

/-- A row without an open cell contributes nothing to `emptyCells`. -/
theorem emptyCellsRow_eq_nil (r : Nat) :
    ∀ (row : List Char) (c : Nat), (∀ ch ∈ row, ch ≠ '.') → emptyCellsRow r row c = [] := by
  intro row
  induction row with
  | nil => intro c _; rfl
  | cons ch rest ih =>
    intro c h
    have h1 : ch ≠ '.' := h ch (List.mem_cons_self _ _)
    simp only [emptyCellsRow, if_neg h1]
    exact ih (c + 1) (fun x hx => h x (List.mem_cons_of_mem _ hx))

theorem emptyCellsFrom_eq_nil :
    ∀ (grid : List (List Char)) (r : Nat), (∀ row ∈ grid, ∀ ch ∈ row, ch ≠ '.') →
      emptyCellsFrom grid r = [] := by
  intro grid
  induction grid with
  | nil => intro r _; rfl
  | cons row rest ih =>
    intro r h
    simp only [emptyCellsFrom]
    rw [emptyCellsRow_eq_nil r row 0 (h row (List.mem_cons_self _ _)),
      ih (r + 1) (fun x hx => h x (List.mem_cons_of_mem _ hx))]
    rfl

/-- A point listed for a row lies on that row, at a column holding an open cell. -/
theorem mem_emptyCellsRow (r : Nat) :
    ∀ (row : List Char) (c0 : Nat) (p : Point), p ∈ emptyCellsRow r row c0 →
      p.R = (r : Int) ∧ ∃ j : Nat, p.C = ((c0 + j : Nat) : Int) ∧ row.get? j = some '.' := by
  intro row
  induction row with
  | nil => intro c0 p h; simp [emptyCellsRow] at h
  | cons ch rest ih =>
    intro c0 p h
    simp only [emptyCellsRow] at h
    have hrest : p ∈ emptyCellsRow r rest (c0 + 1) →
        p.R = (r : Int) ∧ ∃ j : Nat, p.C = ((c0 + j : Nat) : Int) ∧
          (ch :: rest).get? j = some '.' := by
      intro h1
      obtain ⟨hr, j, hj, hget⟩ := ih (c0 + 1) p h1
      refine ⟨hr, j + 1, ?_, ?_⟩
      · rw [hj]; congr 1; omega
      · simpa using hget
    split_ifs at h with hch
    · rcases List.mem_cons.mp h with h1 | h1
      · subst h1
        exact ⟨rfl, 0, rfl, by simp [hch]⟩
      · exact hrest h1
    · exact hrest h

/-- A point listed by the outer loop indexes an open cell of the grid. -/
theorem mem_emptyCellsFrom :
    ∀ (grid : List (List Char)) (r0 : Nat) (p : Point), p ∈ emptyCellsFrom grid r0 →
      ∃ (i j : Nat) (row : List Char), p.R = ((r0 + i : Nat) : Int) ∧ p.C = (j : Int) ∧
        grid.get? i = some row ∧ row.get? j = some '.' := by
  intro grid
  induction grid with
  | nil => intro r0 p h; simp [emptyCellsFrom] at h
  | cons row rest ih =>
    intro r0 p h
    simp only [emptyCellsFrom, List.mem_append] at h
    rcases h with h | h
    · obtain ⟨hr, j, hj, hget⟩ := mem_emptyCellsRow r0 row 0 p h
      refine ⟨0, j, row, by simpa using hr, by simpa using hj, rfl, hget⟩
    · obtain ⟨i, j, row1, hr, hc, hrow, hget⟩ := ih (r0 + 1) p h
      refine ⟨i + 1, j, row1, ?_, hc, by simpa using hrow, hget⟩
      rw [hr]; congr 1; omega

/-- Every point of `emptyCells` reads as an open cell. -/
theorem cellAt_of_mem_emptyCells (grid : List (List Char)) (p : Point)
    (h : p ∈ emptyCells grid) : cellAt grid p.R p.C = some '.' := by
  obtain ⟨i, j, row, hr, hc, hrow, hget⟩ := mem_emptyCellsFrom grid 0 p h
  have hn : ¬ (p.R < 0 ∨ p.C < 0) := by omega
  have hi : p.R.toNat = i := by omega
  have hj : p.C.toNat = j := by omega
  simp only [cellAt, if_neg hn, hi, hj, hrow, hget]

/-- A cell that can be read lies inside the grid. -/
theorem cellAt_bounds (grid : List (List Char)) (r c : Int) (ch : Char)
    (h : cellAt grid r c = some ch) :
    0 ≤ r ∧ r < grid.length ∧ 0 ≤ c ∧
      ∃ row ∈ grid, ch ∈ row ∧ c < row.length := by
  unfold cellAt at h
  split_ifs at h with hn
  split at h
  · cases h
  · rename_i row hrow
    obtain ⟨h1, hg1⟩ := List.get?_eq_some.mp hrow
    obtain ⟨h2, hg2⟩ := List.get?_eq_some.mp h
    refine ⟨by omega, by omega, by omega, row, ?_, ?_, by omega⟩
    · rw [← hg1]; exact List.get_mem _ _ _
    · rw [← hg2]; exact List.get_mem _ _ _

/-- The position `randomPlayerPlacement` returns is one of the `emptyCells`. -/
theorem randomPlayerPlacement_ok (grid : List (List Char)) (pick face : Nat) (pos : Point)
    (dir : Direction) (h : randomPlayerPlacement grid pick face = .ok (pos, dir)) :
    pos ∈ emptyCells grid ∧ dir = ((Intn face 4 : Nat) : Int) := by
  unfold randomPlayerPlacement at h
  simp only at h
  split_ifs at h with hlen
  split at h
  · cases h
  · rename_i p hp
    cases h
    exact ⟨List.get?_mem hp, rfl⟩

/-- The shape of a generated grid: `size` rows of `size` cells, each `'#'` or `'.'`. -/
theorem generateGrid_shape (lim : Nat) (size : Int) (density : F64) (draws : Nat → F64)
    (grid : List (List Char)) (h : generateGrid lim size density draws = some grid) :
    (grid.length : Int) = size ∧
      ∀ row ∈ grid, (row.length : Int) = size ∧ ∀ ch ∈ row, ch = '#' ∨ ch = '.' := by
  unfold generateGrid at h
  split_ifs at h with hs
  cases h
  refine ⟨?_, ?_⟩
  · rw [genRows_length]; omega
  · intro row hrow
    obtain ⟨k1, hk1⟩ := genRows_mem _ _ _ _ _ row hrow
    subst hk1
    refine ⟨?_, ?_⟩
    · rw [genRow_length]; omega
    · intro ch hch
      obtain ⟨j, _, hj⟩ := genRow_mem _ _ _ _ ch hch
      rw [hj]
      split_ifs
      · exact Or.inl rfl
      · exact Or.inr rfl

/-- The state `newGame` returns satisfies the invariant of play. -/
theorem newGame_inv (lim : Nat) (size : Int) (density : F64) (draws : Nat → F64) (pick face : Nat)
    (g : Game) (h : newGame lim size density draws pick face = .ok g) : Inv g := by
  obtain ⟨_, hgrid, hplace, _, _, hrows, hcols⟩ := newGame_ok lim size density draws pick face g h
  obtain ⟨hlen, hshape⟩ := generateGrid_shape lim size density draws g.Grid hgrid
  have hcell := cellAt_of_mem_emptyCells g.Grid g.Player
    (randomPlayerPlacement_ok g.Grid pick face g.Player g.Facing hplace).1
  obtain ⟨h0, h1, h2, row, hrow, _, h3⟩ := cellAt_bounds g.Grid _ _ _ hcell
  have h4 := (hshape row hrow).1
  refine ⟨⟨by omega, fun r hr => by rw [hcols]; exact (hshape r hr).1, ?_⟩,
    fun r hr => (hshape r hr).2, hcell⟩
  exact ⟨h0, by omega, h2, by omega⟩

/-- One call of `TryMove` keeps the invariant of play, and does not panic. -/
theorem TryMove_inv (g : Game) (d : Direction) (h : Inv g) :
    Inv (TryMove g d).state ∧ (TryMove g d).panicked = false := by
  obtain ⟨hwf, hcells, hplayer⟩ := h
  by_cases hin : InBounds g (candidate g d)
  · obtain ⟨ch, hch⟩ := cellAt_candidate g d hwf hin
    rw [TryMove_in g d hin, hch]
    by_cases hb : ch = '#'
    · dsimp only
      rw [if_pos hb]
      exact ⟨⟨hwf, hcells, hplayer⟩, rfl⟩
    · dsimp only
      rw [if_neg hb]
      obtain ⟨_, _, _, row, hrow, hmem, _⟩ := cellAt_bounds g.Grid _ _ _ hch
      have hdot : ch = '.' := (hcells row hrow ch hmem).resolve_left hb
      refine ⟨⟨⟨hwf.1, hwf.2.1, hin⟩, hcells, ?_⟩, rfl⟩
      rw [← hdot]
      exact hch
  · rw [TryMove_off g d hin]
    exact ⟨⟨hwf, hcells, hplayer⟩, rfl⟩

/-- A sequence of calls keeps the invariant of play. -/
theorem run_inv (ds : List Direction) : ∀ g : Game, Inv g → Inv (run g ds) := by
  induction ds with
  | nil => intro g h; exact h
  | cons d ds ih =>
    intro g h
    rw [run_cons]
    exact ih _ (TryMove_inv g d h).1

/-- One call of `TryMove` leaves the grid and its dimensions alone. -/
theorem TryMove_frame (g : Game) (d : Direction) :
    (TryMove g d).state.Grid = g.Grid ∧ (TryMove g d).state.Rows = g.Rows ∧
      (TryMove g d).state.Cols = g.Cols := by
  by_cases hin : InBounds g (candidate g d)
  · rw [TryMove_in g d hin]
    split
    · exact ⟨rfl, rfl, rfl⟩
    · split_ifs
      · exact ⟨rfl, rfl, rfl⟩
      · exact ⟨rfl, rfl, rfl⟩
  · rw [TryMove_off g d hin]
    exact ⟨rfl, rfl, rfl⟩

theorem run_frame (ds : List Direction) :
    ∀ g : Game, (run g ds).Grid = g.Grid ∧ (run g ds).Rows = g.Rows ∧
      (run g ds).Cols = g.Cols := by
  induction ds with
  | nil => intro g; exact ⟨rfl, rfl, rfl⟩
  | cons d ds ih =>
    intro g
    rw [run_cons]
    obtain ⟨h1, h2, h3⟩ := ih (TryMove g d).state
    obtain ⟨k1, k2, k3⟩ := TryMove_frame g d
    exact ⟨h1.trans k1, h2.trans k2, h3.trans k3⟩

theorem F64.not_lt_zero_of_one_lt (d : F64) (h : F64.lt F64.one d = true) :
    F64.lt d F64.zero = false := by
  cases d with
  | nan => rfl
  | negInf => simp [F64.lt, F64.one] at h
  | posInf => rfl
  | fin q =>
    simp only [F64.lt, F64.one, F64.zero, decide_eq_true_eq, decide_eq_false_iff_not] at h ⊢
    linarith

theorem clampDensity_zero : clampDensity F64.zero = F64.zero := by decide

theorem clampDensity_one : clampDensity F64.one = F64.one := by decide

theorem clampDensity_of_lt_zero (d : F64) (h : F64.lt d F64.zero = true) :
    clampDensity d = F64.zero := by
  simp only [clampDensity, h, if_true]
  decide

theorem clampDensity_of_one_lt (d : F64) (h : F64.lt F64.one d = true) :
    clampDensity d = F64.one := by
  simp [clampDensity, h, F64.not_lt_zero_of_one_lt d h]

/-- A draw in `[0, 1)` is not below zero and is below one. -/
theorem F64.InUnit.lt (x : F64) (h : F64.InUnit x) :
    F64.lt x F64.zero = false ∧ F64.lt x F64.one = true := by
  cases x with
  | fin q =>
    simp only [F64.InUnit] at h
    simp only [F64.lt, F64.zero, F64.one, decide_eq_true_eq, decide_eq_false_iff_not]
    exact ⟨by linarith [h.1], h.2⟩
  | nan => exact h.elim
  | negInf => exact h.elim
  | posInf => exact h.elim

/-! ## The move transition: the claims -/

/-- C1, as stated, fails when the step counter is at the largest `int`: on the 3x3 open
grid with `Steps = 2^63 - 1`, moving Right is a well-formed, in-bounds, unblocked move, and
the counter wraps to `-2^63` instead of growing by one. -/
theorem C1_counterexample :
    WellFormed open3Max ∧ InBounds open3Max (candidate open3Max Right) ∧
    cellAt open3Max.Grid (candidate open3Max Right).R (candidate open3Max Right).C ≠ some '#' ∧
    (TryMove open3Max Right).state.Steps = minInt ∧
    (TryMove open3Max Right).state.Steps ≠ open3Max.Steps + 1 := by
  decide

/-- C1 (amended): in a well-formed state whose step counter is a Go `int` below the largest
one, a move whose candidate cell `Player + dirDelta d` is in bounds and not blocked puts the
player on the candidate cell, adds exactly one step and leaves `Won` as it was; the deltas
are Up=(-1,0), Right=(0,1), Down=(1,0), Left=(0,-1), so for each of the four directions
exactly one coordinate changes, by exactly 1. -/
theorem C1_open_move (g : Game) (d : Direction) (hwf : WellFormed g)
    (hin : InBounds g (candidate g d))
    (hopen : cellAt g.Grid (candidate g d).R (candidate g d).C ≠ some '#')
    (hlo : minInt ≤ g.Steps) (hhi : g.Steps < maxInt) :
    (TryMove g d).panicked = false ∧
    (TryMove g d).state.Player = candidate g d ∧
    (TryMove g d).state.Steps = g.Steps + 1 ∧
    (TryMove g d).state.Won = g.Won ∧
    (dirDelta Up = (-1, 0) ∧ dirDelta Right = (0, 1) ∧ dirDelta Down = (1, 0) ∧
      dirDelta Left = (0, -1)) ∧
    (Direction.Named d →
      (|(TryMove g d).state.Player.R - g.Player.R| = 1 ∧
          (TryMove g d).state.Player.C = g.Player.C) ∨
      ((TryMove g d).state.Player.R = g.Player.R ∧
          |(TryMove g d).state.Player.C - g.Player.C| = 1)) := by
  obtain ⟨ch, hch⟩ := cellAt_candidate g d hwf hin
  have hne : ch ≠ '#' := by
    intro h
    exact hopen (by rw [hch, h])
  have hw : wrapInt (g.Steps + 1) = g.Steps + 1 :=
    wrapInt_eq _ ⟨by unfold minInt at *; omega, by omega⟩
  have hmove : TryMove g d =
      { state := { g with Facing := d, Player := candidate g d, Steps := g.Steps + 1 },
        panicked := false } := by
    rw [TryMove_in g d hin, hch, hw]
    simp only [if_neg hne]
  rw [hmove]
  refine ⟨rfl, rfl, rfl, rfl, ⟨by decide, by decide, by decide, by decide⟩, ?_⟩
  intro hd
  simp only [candidate]
  rcases dirDelta_named d hd with h | h | h | h <;> rw [h] <;> simp

/-- C1 (amended) on the 3x3 all-open grid: from (1,1), moving Right. -/
theorem C1_open_move_witness :
    (TryMove open3 Right).panicked = false ∧
    (TryMove open3 Right).state.Player = candidate open3 Right ∧
    (TryMove open3 Right).state.Steps = open3.Steps + 1 ∧
    (TryMove open3 Right).state.Won = open3.Won ∧
    (dirDelta Up = (-1, 0) ∧ dirDelta Right = (0, 1) ∧ dirDelta Down = (1, 0) ∧
      dirDelta Left = (0, -1)) ∧
    (Direction.Named Right →
      (|(TryMove open3 Right).state.Player.R - open3.Player.R| = 1 ∧
          (TryMove open3 Right).state.Player.C = open3.Player.C) ∨
      ((TryMove open3 Right).state.Player.R = open3.Player.R ∧
          |(TryMove open3 Right).state.Player.C - open3.Player.C| = 1)) :=
  C1_open_move open3 Right (by decide) (by decide) (by decide) (by decide) (by decide)

/-- C2: in a well-formed state, a move whose candidate cell is in bounds and blocked
leaves the player, the step counter and `Won` as they were and sets `Facing` to the
direction asked for. -/
theorem C2_blocked_move (g : Game) (d : Direction) (hwf : WellFormed g)
    (hin : InBounds g (candidate g d))
    (hblocked : cellAt g.Grid (candidate g d).R (candidate g d).C = some '#') :
    (TryMove g d).panicked = false ∧
    (TryMove g d).state.Player = g.Player ∧
    (TryMove g d).state.Steps = g.Steps ∧
    (TryMove g d).state.Won = g.Won ∧
    (TryMove g d).state.Facing = d := by
  have _ := hwf
  have hstay : TryMove g d = { state := { g with Facing := d }, panicked := false } := by
    rw [TryMove_in g d hin, hblocked]
    simp
  rw [hstay]
  exact ⟨rfl, rfl, rfl, rfl, rfl⟩

/-- C2 on the 2x2 grid with (0,1) blocked: from (0,0), moving Right. -/
theorem C2_blocked_move_witness :
    (TryMove wall2 Right).panicked = false ∧
    (TryMove wall2 Right).state.Player = wall2.Player ∧
    (TryMove wall2 Right).state.Steps = wall2.Steps ∧
    (TryMove wall2 Right).state.Won = wall2.Won ∧
    (TryMove wall2 Right).state.Facing = Right :=
  C2_blocked_move wall2 Right (by decide) (by decide) (by decide)

/-- C3, as stated, fails when the step counter is at the largest `int`: on the 2x2 grid
with `Steps = 2^63 - 1`, moving Up from (0,0) leaves the grid, and the counter wraps to
`-2^63` instead of growing by one. -/
theorem C3_counterexample :
    ¬ InBounds wall2Max (candidate wall2Max Up) ∧
    (TryMove wall2Max Up).state.Won = true ∧
    (TryMove wall2Max Up).state.Steps = minInt ∧
    (TryMove wall2Max Up).state.Steps ≠ wall2Max.Steps + 1 := by
  decide

/-- C3 (amended): in any state whose step counter is a Go `int` below the largest one, a
move whose candidate cell is outside `[0,Rows) x [0,Cols)` sets `Won`, adds exactly one step
and leaves the player where it was, whatever the grid holds: the outcome is the same for
every other grid. -/
theorem C3_off_grid_move (g : Game) (d : Direction) (hout : ¬ InBounds g (candidate g d))
    (hlo : minInt ≤ g.Steps) (hhi : g.Steps < maxInt) :
    (TryMove g d).panicked = false ∧
    (TryMove g d).state.Won = true ∧
    (TryMove g d).state.Steps = g.Steps + 1 ∧
    (TryMove g d).state.Player = g.Player ∧
    (∀ grid : List (List Char),
      TryMove { g with Grid := grid } d =
        { state := { (TryMove g d).state with Grid := grid }, panicked := false }) := by
  have hw : wrapInt (g.Steps + 1) = g.Steps + 1 :=
    wrapInt_eq _ ⟨by unfold minInt at *; omega, by omega⟩
  rw [TryMove_off g d hout]
  refine ⟨rfl, rfl, hw, rfl, ?_⟩
  intro grid
  have hout' : ¬ InBounds { g with Grid := grid } (candidate { g with Grid := grid } d) := hout
  rw [TryMove_off _ d hout']

/-- C3 (amended) on the 3x3 grid: from (1,2), moving Right leaves the grid. -/
theorem C3_off_grid_move_witness :
    (TryMove (TryMove open3 Right).state Right).panicked = false ∧
    (TryMove (TryMove open3 Right).state Right).state.Won = true ∧
    (TryMove (TryMove open3 Right).state Right).state.Steps =
      (TryMove open3 Right).state.Steps + 1 ∧
    (TryMove (TryMove open3 Right).state Right).state.Player =
      (TryMove open3 Right).state.Player ∧
    (∀ grid : List (List Char),
      TryMove { (TryMove open3 Right).state with Grid := grid } Right =
        { state := { (TryMove (TryMove open3 Right).state Right).state with Grid := grid },
          panicked := false }) :=
  C3_off_grid_move (TryMove open3 Right).state Right (by decide) (by decide) (by decide)

/-- C4: in any state and for any direction, `Facing` is the direction asked for after
`TryMove`, on each of its branches (off the grid, blocked, moved). -/
theorem C4_facing_updated (g : Game) (d : Direction) : (TryMove g d).state.Facing = d := by
  by_cases h : InBounds g (candidate g d)
  · rw [TryMove_in g d h]
    split
    · rfl
    · split_ifs
      · rfl
      · rfl
  · rw [TryMove_off g d h]

/-- C5: in every state reached from a successful `newGame size density` by a finite
sequence of `TryMove` calls, while `Won` is false the player is within `[0,size)` on both
axes and the grid cell at the player is open (`'.'`). -/
theorem C5_player_on_open_cell (lim : Nat) (size : Int) (density : F64) (draws : Nat → F64)
    (pick face : Nat) (g0 : Game) (hnew : newGame lim size density draws pick face = .ok g0)
    (ds : List Direction) (hactive : (run g0 ds).Won = false) :
    (0 ≤ (run g0 ds).Player.R ∧ (run g0 ds).Player.R < size) ∧
    (0 ≤ (run g0 ds).Player.C ∧ (run g0 ds).Player.C < size) ∧
    cellAt (run g0 ds).Grid (run g0 ds).Player.R (run g0 ds).Player.C = some '.' := by
  have _ := hactive
  obtain ⟨⟨_, _, hb⟩, _, hcell⟩ := run_inv ds g0 (newGame_inv lim size density draws pick face g0 hnew)
  obtain ⟨_, _, _, _, _, hrows, hcols⟩ := newGame_ok lim size density draws pick face g0 hnew
  obtain ⟨_, hr, hc⟩ := run_frame ds g0
  obtain ⟨h1, h2, h3, h4⟩ := hb
  exact ⟨⟨h1, by omega⟩, ⟨h3, by omega⟩, hcell⟩

/-- C5 for the 2x2 game `start2`, after a blocked-free walk Down then Left. -/
theorem C5_player_on_open_cell_witness :
    newGame lim64 2 quarter halves 5 6 = .ok start2 ∧ (run start2 [Down, Left]).Won = false ∧
    (0 ≤ (run start2 [Down, Left]).Player.R ∧ (run start2 [Down, Left]).Player.R < 2) ∧
    (0 ≤ (run start2 [Down, Left]).Player.C ∧ (run start2 [Down, Left]).Player.C < 2) ∧
    cellAt (run start2 [Down, Left]).Grid (run start2 [Down, Left]).Player.R
      (run start2 [Down, Left]).Player.C = some '.' :=
  ⟨rfl, by decide,
    C5_player_on_open_cell lim64 2 quarter halves 5 6 start2 rfl [Down, Left] (by decide)⟩

/-- C6: leaving the grid is the only way to win: in a well-formed state with `Won` false,
`Won` is true after `TryMove` exactly when the candidate cell is outside
`[0,Rows) x [0,Cols)`. -/
theorem C6_win_iff_off_grid (g : Game) (d : Direction) (hwf : WellFormed g)
    (hactive : g.Won = false) :
    (TryMove g d).panicked = false ∧
    ((TryMove g d).state.Won = true ↔ ¬ InBounds g (candidate g d)) := by
  by_cases hin : InBounds g (candidate g d)
  · obtain ⟨ch, hch⟩ := cellAt_candidate g d hwf hin
    rw [TryMove_in g d hin, hch]
    by_cases hb : ch = '#'
    · simp [hb, hactive, hin]
    · simp [hb, hactive, hin]
  · rw [TryMove_off g d hin]
    simp [hin]

/-- C6 on the 3x3 grid: from the middle, one move Right does not win. -/
theorem C6_win_iff_off_grid_witness :
    (TryMove open3 Right).panicked = false ∧
    ((TryMove open3 Right).state.Won = true ↔ ¬ InBounds open3 (candidate open3 Right)) :=
  C6_win_iff_off_grid open3 Right (by decide) (by decide)

/-- C7: `Won` is terminal: from a state with `Won` true, `Won` is true after any call of
`TryMove`, and after any sequence of calls. -/
theorem C7_won_terminal (g : Game) (hwon : g.Won = true) :
    (∀ d : Direction, (TryMove g d).state.Won = true) ∧
    (∀ ds : List Direction, (run g ds).Won = true) :=
  ⟨fun d => TryMove_won_of_won g d hwon, fun ds => run_won_of_won ds g hwon⟩

/-- C7 on the 3x3 grid, after the player has left it on the right. -/
theorem C7_won_terminal_witness :
    (∀ d : Direction, (TryMove (run open3 [Right, Right]) d).state.Won = true) ∧
    (∀ ds : List Direction, (run (run open3 [Right, Right]) ds).Won = true) :=
  C7_won_terminal (run open3 [Right, Right]) (by decide)

/-- C8, as stated, fails when the step counter is at the largest `int`: on the 3x3 open
grid with `Steps = 2^63 - 1`, the move Left leaves the counter at `-2^63`, which is neither
`Steps` nor `Steps + 1`, and is less than `Steps`. -/
theorem C8_counterexample :
    ¬ ((TryMove open3Max Left).state.Steps = open3Max.Steps ∨
        (TryMove open3Max Left).state.Steps = open3Max.Steps + 1) ∧
    (TryMove open3Max Left).state.Steps < open3Max.Steps ∧
    (TryMove open3Max Left).state.Steps < 0 := by
  decide

/-- C8 (amended): the step counter starts at 0 in the state `newGame` returns; in any state
whose counter is a Go `int` below the largest one, one call of `TryMove` keeps it or adds
exactly one (never less); so along any sequence of calls that cannot take the counter past
the largest `int` it never decreases, and it is non-negative in every state reached from
`newGame` by at most `2^63 - 1` calls. -/
theorem C8_steps_monotone (lim : Nat) (size : Int) (density : F64) (draws : Nat → F64)
    (pick face : Nat) (g0 : Game) (hnew : newGame lim size density draws pick face = .ok g0) :
    g0.Steps = 0 ∧
    (∀ (g : Game) (d : Direction), minInt ≤ g.Steps → g.Steps < maxInt →
      (TryMove g d).state.Steps = g.Steps ∨ (TryMove g d).state.Steps = g.Steps + 1) ∧
    (∀ (g : Game) (ds es : List Direction), 0 ≤ g.Steps →
      g.Steps + (ds ++ es).length ≤ maxInt → (run g ds).Steps ≤ (run g (ds ++ es)).Steps) ∧
    (∀ ds : List Direction, (ds.length : Int) ≤ maxInt → 0 ≤ (run g0 ds).Steps) := by
  have h0 := (newGame_ok lim size density draws pick face g0 hnew).2.2.2.1
  refine ⟨h0, TryMove_steps, ?_, ?_⟩
  · intro g ds es hg hlen
    have hl : ((ds ++ es).length : Int) = ds.length + es.length := by simp
    obtain ⟨h1, h2⟩ := run_steps_mono ds g hg (by omega)
    rw [run_append]
    exact (run_steps_mono es (run g ds) (by omega) (by omega)).1
  · intro ds hlen
    have := run_steps_mono ds g0 (by omega) (by omega)
    omega

/-- C8 (amended) for the 2x2 game `start2` and the walk Down, Left, Up. -/
theorem C8_steps_monotone_witness :
    newGame lim64 2 quarter halves 5 6 = .ok start2 ∧
    ([Down, Left, Up].length : Int) ≤ maxInt ∧
    0 ≤ (run start2 [Down, Left, Up]).Steps ∧
    ((TryMove start2 Down).state.Steps = start2.Steps ∨
      (TryMove start2 Down).state.Steps = start2.Steps + 1) :=
  ⟨rfl, by decide,
    (C8_steps_monotone lim64 2 quarter halves 5 6 start2 rfl).2.2.2 [Down, Left, Up] (by decide),
    (C8_steps_monotone lim64 2 quarter halves 5 6 start2 rfl).2.1 start2 Down (by decide)
      (by decide)⟩

/-- C9, as stated, fails for a size `make` cannot allocate: at size `2^62`, with the
allocation limit of a 64-bit platform and every draw zero, `generateGrid` returns no grid and
`newGame` ends in the runtime panic instead of the no-open-cell error. -/
theorem C9_counterexample :
    (0 : Int) < 4611686018427387904 ∧ (∀ k, F64.InUnit (zeros k)) ∧
    generateGrid lim64 4611686018427387904 F64.zero zeros = none ∧
    generateGrid lim64 4611686018427387904 F64.one zeros = none ∧
    newGame lim64 4611686018427387904 F64.one zeros 0 0 = .error .runtimePanic ∧
    newGame lim64 4611686018427387904 F64.one zeros 0 0 ≠ .error .noEmptyCells :=
  ⟨by decide, fun _ => ⟨le_refl 0, zero_lt_one⟩, by decide, by decide, rfl,
    fun h => by cases h⟩

/-- C9 (amended): for every size > 0 that `make` can allocate (`size <= lim`) and every
sequence of draws in `[0,1)`, `generateGrid size 0` is a grid with no blocked cell,
`generateGrid size 1` is a grid with no open cell, and on the latter
`randomPlayerPlacement`, hence `newGame size 1`, fails with the no-open-cell error. -/
theorem C9_extreme_densities (lim : Nat) (size : Int) (draws : Nat → F64) (hsize : 0 < size)
    (hlim : size ≤ (lim : Int)) (hdraws : ∀ k, F64.InUnit (draws k)) :
    (∃ grid, generateGrid lim size F64.zero draws = some grid ∧ (grid.length : Int) = size ∧
      ∀ row ∈ grid, (row.length : Int) = size ∧ ∀ ch ∈ row, ch ≠ '#') ∧
    (∃ grid, generateGrid lim size F64.one draws = some grid ∧ (grid.length : Int) = size ∧
      (∀ row ∈ grid, (row.length : Int) = size ∧ ∀ ch ∈ row, ch ≠ '.') ∧
      ∀ pick face, randomPlayerPlacement grid pick face = .error .noEmptyCells) ∧
    (∀ pick face, newGame lim size F64.one draws pick face = .error .noEmptyCells) := by
  have hs : ¬ (size < 0 ∨ size > (lim : Int)) := by omega
  have hs' : ¬ size ≤ 0 := by omega
  have hzero : generateGrid lim size F64.zero draws =
      some (genRows F64.zero draws size.toNat size.toNat 0) := by
    simp only [generateGrid, if_neg hs, clampDensity_zero]
  have hone : generateGrid lim size F64.one draws =
      some (genRows F64.one draws size.toNat size.toNat 0) := by
    simp only [generateGrid, if_neg hs, clampDensity_one]
  have hnoOpen : ∀ row ∈ genRows F64.one draws size.toNat size.toNat 0, ∀ ch ∈ row, ch ≠ '.' := by
    intro row hrow ch hch
    obtain ⟨k1, hk1⟩ := genRows_mem _ _ _ _ _ row hrow
    subst hk1
    obtain ⟨j, _, hj⟩ := genRow_mem _ _ _ _ ch hch
    rw [hj, (F64.InUnit.lt _ (hdraws _)).2]
    decide
  have hplace : ∀ pick face, randomPlayerPlacement
      (genRows F64.one draws size.toNat size.toNat 0) pick face = .error .noEmptyCells := by
    intro pick face
    simp [randomPlayerPlacement, emptyCells, emptyCellsFrom_eq_nil _ 0 hnoOpen]
  refine ⟨⟨_, hzero, ?_, ?_⟩, ⟨_, hone, ?_, ?_, hplace⟩, ?_⟩
  · rw [genRows_length]; omega
  · intro row hrow
    obtain ⟨k1, hk1⟩ := genRows_mem _ _ _ _ _ row hrow
    subst hk1
    refine ⟨by rw [genRow_length]; omega, ?_⟩
    intro ch hch
    obtain ⟨j, _, hj⟩ := genRow_mem _ _ _ _ ch hch
    rw [hj, (F64.InUnit.lt _ (hdraws _)).1]
    decide
  · rw [genRows_length]; omega
  · intro row hrow
    obtain ⟨k1, hk1⟩ := genRows_mem _ _ _ _ _ row hrow
    subst hk1
    exact ⟨by rw [genRow_length]; omega, hnoOpen _ hrow⟩
  · intro pick face
    simp only [newGame, if_neg hs', hone, hplace]

/-- C9 (amended) at size 2 with every draw equal to zero. -/
theorem C9_extreme_densities_witness :
    (∃ grid, generateGrid lim64 2 F64.zero zeros = some grid ∧ (grid.length : Int) = 2 ∧
      ∀ row ∈ grid, (row.length : Int) = 2 ∧ ∀ ch ∈ row, ch ≠ '#') ∧
    (∃ grid, generateGrid lim64 2 F64.one zeros = some grid ∧ (grid.length : Int) = 2 ∧
      (∀ row ∈ grid, (row.length : Int) = 2 ∧ ∀ ch ∈ row, ch ≠ '.') ∧
      ∀ pick face, randomPlayerPlacement grid pick face = .error .noEmptyCells) ∧
    (∀ pick face, newGame lim64 2 F64.one zeros pick face = .error .noEmptyCells) :=
  C9_extreme_densities lim64 2 zeros (by decide) (by decide)
    (fun _ => ⟨le_refl 0, zero_lt_one⟩)

/-- C10: the density is clamped before use: for every size and every sequence of draws,
`generateGrid size d` is `generateGrid size 0` when `d < 0` and `generateGrid size 1` when
`d > 1` (under any allocation limit). -/
theorem C10_density_clamped (lim : Nat) (size : Int) (d : F64) (draws : Nat → F64) :
    (F64.lt d F64.zero = true →
      generateGrid lim size d draws = generateGrid lim size F64.zero draws) ∧
    (F64.lt F64.one d = true →
      generateGrid lim size d draws = generateGrid lim size F64.one draws) := by
  refine ⟨fun h => ?_, fun h => ?_⟩
  · simp only [generateGrid, clampDensity_of_lt_zero d h, clampDensity_zero]
  · simp only [generateGrid, clampDensity_of_one_lt d h, clampDensity_one]

/-- C10 at size 2 with draws of one half: density -1 gives the all-open grid of density 0,
density 2 the all-blocked grid of density 1. -/
theorem C10_density_clamped_witness :
    (generateGrid lim64 2 (.fin (-1)) halves = generateGrid lim64 2 F64.zero halves ∧
      generateGrid lim64 2 F64.zero halves = some [['.', '.'], ['.', '.']]) ∧
    (generateGrid lim64 2 (.fin 2) halves = generateGrid lim64 2 F64.one halves ∧
      generateGrid lim64 2 F64.one halves = some [['#', '#'], ['#', '#']]) :=
  ⟨⟨(C10_density_clamped lim64 2 (.fin (-1)) halves).1 (by decide), by decide⟩,
    ⟨(C10_density_clamped lim64 2 (.fin 2) halves).2 (by decide), by decide⟩⟩

/-! ## The later claims: frame, distance, undo, input -/

theorem dirDelta_opposite (d : Direction) :
    (dirDelta (opposite d)).1 = -(dirDelta d).1 ∧ (dirDelta (opposite d)).2 = -(dirDelta d).2 := by
  unfold opposite dirDelta
  split_ifs <;> simp_all [Up, Right, Down, Left]

/-- Below the largest `int`, one call of `TryMove` moves the player by at most the steps it
adds. -/
theorem TryMove_dist (g : Game) (d : Direction) (hlo : minInt ≤ g.Steps)
    (hhi : g.Steps < maxInt) :
    manhattan (TryMove g d).state.Player g.Player ≤ (TryMove g d).state.Steps - g.Steps := by
  have hw : wrapInt (g.Steps + 1) = g.Steps + 1 :=
    wrapInt_eq _ ⟨by unfold minInt at *; omega, by omega⟩
  by_cases hin : InBounds g (candidate g d)
  · rw [TryMove_in g d hin, hw]
    split
    · simp [manhattan]
    · split_ifs
      · simp [manhattan]
      · simp only [manhattan, candidate]
        rcases dirDelta_cases d with h | h | h | h | h <;> rw [h] <;> simp
  · rw [TryMove_off g d hin, hw]
    simp [manhattan]

theorem manhattan_triangle (p q r : Point) : manhattan p r ≤ manhattan p q + manhattan q r := by
  unfold manhattan
  have h1 := abs_sub_le p.R q.R r.R
  have h2 := abs_sub_le p.C q.C r.C
  omega

/-- While the counter cannot reach the largest `int`, the player gets no further from where
it started than the steps added. -/
theorem run_dist (ds : List Direction) :
    ∀ g : Game, 0 ≤ g.Steps → g.Steps + ds.length ≤ maxInt →
      manhattan (run g ds).Player g.Player ≤ (run g ds).Steps - g.Steps := by
  induction ds with
  | nil => intro g _ _; simp [run_nil, manhattan]
  | cons d ds ih =>
    intro g h0 hlen
    rw [run_cons]
    have h5 : ((d :: ds).length : Int) = ds.length + 1 := by simp
    have hlo : minInt ≤ g.Steps := by unfold minInt; omega
    have hstep := TryMove_steps g d hlo (by omega)
    have h2 := ih (TryMove g d).state (by omega) (by omega)
    have h3 := TryMove_dist g d hlo (by omega)
    have h4 := manhattan_triangle (run (TryMove g d).state ds).Player (TryMove g d).state.Player
      g.Player
    omega

/-- The step counter of a state reached by calls of `TryMove` is a Go `int`. -/
theorem run_isInt64 (ds : List Direction) :
    ∀ g : Game, IsInt64 g.Steps → IsInt64 (run g ds).Steps := by
  induction ds with
  | nil => intro g h; exact h
  | cons d ds ih =>
    intro g h
    rw [run_cons]
    apply ih
    rcases TryMove_steps_wrap g d with h1 | h1
    · rw [h1]; exact h
    · rw [h1]; exact wrapInt_isInt64 _

/-- Wrapping an intermediate result does not change the wrapped sum. -/
theorem wrapInt_add (x y : Int) : wrapInt (wrapInt x + y) = wrapInt (x + y) := by
  unfold wrapInt
  omega

/-- From a state that satisfies the invariant of play, a displacing move followed by the
move in the opposite direction brings the player back, after two increments of the
counter. -/
theorem undo_of_inv (g : Game) (d : Direction) (hinv : Inv g)
    (hin : InBounds g (candidate g d))
    (hopen : cellAt g.Grid (candidate g d).R (candidate g d).C = some '.') :
    (TryMove g d).state =
        { g with Facing := d, Player := candidate g d, Steps := wrapInt (g.Steps + 1) } ∧
      (TryMove (TryMove g d).state (opposite d)).state =
        { g with Facing := opposite d, Steps := wrapInt (wrapInt (g.Steps + 1) + 1) } ∧
      (TryMove (TryMove g d).state (opposite d)).panicked = false := by
  have h1 : TryMove g d =
      { state :=
          { g with Facing := d, Player := candidate g d, Steps := wrapInt (g.Steps + 1) },
        panicked := false } := by
    rw [TryMove_in g d hin, hopen]
    rfl
  obtain ⟨ho1, ho2⟩ := dirDelta_opposite d
  have hback : candidate (TryMove g d).state (opposite d) = g.Player := by
    rw [h1]
    simp only [candidate, ho1, ho2]
    cases hp : g.Player
    simp
  have hin2 : InBounds (TryMove g d).state (candidate (TryMove g d).state (opposite d)) := by
    rw [hback, h1]
    exact hinv.1.2.2
  have hcell : cellAt (TryMove g d).state.Grid
      (candidate (TryMove g d).state (opposite d)).R
      (candidate (TryMove g d).state (opposite d)).C = some '.' := by
    rw [hback, h1]
    exact hinv.2.2
  refine ⟨by rw [h1], ?_, ?_⟩
  · rw [TryMove_in _ _ hin2, hcell, hback, h1]
    rfl
  · rw [TryMove_in _ _ hin2, hcell]
    rfl

/-- The game `start2` is the one `newGame` returns for size 2, density one quarter and
draws of one half, and so satisfies the invariant of play. -/
theorem start2_inv : Inv start2 :=
  newGame_inv lim64 2 quarter halves 5 6 start2 rfl

/-- On the grid of `start2`, from (0,1), the walk Down, Up repeated `k` times brings the
player back with `2 * k` more steps, as long as the counter stays below the largest `int`. -/
theorem run_cycles (k : Nat) :
    ∀ g : Game, Inv g → g.Grid = start2.Grid → g.Rows = 2 → g.Cols = 2 →
      g.Player = { R := 0, C := 1 } → 0 ≤ g.Steps → g.Steps + 2 * (k : Int) ≤ maxInt →
      Inv (run g (cycles k)) ∧ (run g (cycles k)).Player = { R := 0, C := 1 } ∧
        (run g (cycles k)).Won = g.Won ∧ (run g (cycles k)).Steps = g.Steps + 2 * (k : Int) := by
  induction k with
  | zero => intro g hinv _ _ _ hp _ _; exact ⟨hinv, hp, rfl, by simp [cycles, run_nil]⟩
  | succ k ih =>
    intro g hinv hgrid hrows hcols hp h0 hlen
    have hcand : candidate g Down = { R := 1, C := 1 } := by
      simp only [candidate, hp]
      decide
    have hin : InBounds g (candidate g Down) := by
      rw [hcand]
      simp only [InBounds, hrows, hcols]
      decide
    have hopen : cellAt g.Grid (candidate g Down).R (candidate g Down).C = some '.' := by
      rw [hcand, hgrid]
      decide
    obtain ⟨_, h2, _⟩ := undo_of_inv g Down hinv hin hopen
    have hw1 : wrapInt (g.Steps + 1) = g.Steps + 1 :=
      wrapInt_eq _ ⟨by unfold minInt; omega, by push_cast at hlen; omega⟩
    have hw2 : wrapInt (g.Steps + 1 + 1) = g.Steps + 1 + 1 :=
      wrapInt_eq _ ⟨by unfold minInt; omega, by push_cast at hlen; omega⟩
    have hop : opposite Down = Up := by decide
    have hrun : run g (cycles (k + 1)) =
        run { g with Facing := Up, Steps := g.Steps + 1 + 1 } (cycles k) := by
      show run g (Down :: Up :: cycles k) = _
      rw [run_cons, run_cons, ← hop, h2, hw1, hw2]
    rw [hrun]
    obtain ⟨i1, i2, i3, i4⟩ := ih { g with Facing := Up, Steps := g.Steps + 1 + 1 } hinv hgrid
      hrows hcols hp (by show 0 ≤ g.Steps + 1 + 1; omega)
      (by show g.Steps + 1 + 1 + 2 * (k : Int) ≤ maxInt; push_cast at hlen; omega)
    refine ⟨i1, i2, i3, ?_⟩
    rw [i4]
    show g.Steps + 1 + 1 + 2 * (k : Int) = g.Steps + 2 * ((k + 1 : Nat) : Int)
    push_cast
    omega

/-- From row 0 every move Up leaves the grid, so `n` of them increment the counter `n`
times, with wrap-around, and leave the player in place. -/
theorem run_ups (n : Nat) :
    ∀ g : Game, g.Player = { R := 0, C := 0 } → IsInt64 g.Steps →
      (run g (List.replicate n Up)).Steps = wrapInt (g.Steps + (n : Int)) ∧
        (run g (List.replicate n Up)).Player = { R := 0, C := 0 } := by
  induction n with
  | zero =>
    intro g hp hs
    refine ⟨?_, hp⟩
    show g.Steps = wrapInt (g.Steps + ((0 : Nat) : Int))
    rw [Int.ofNat_zero, Int.add_zero, wrapInt_eq _ hs]
  | succ n ih =>
    intro g hp hs
    have hout : ¬ InBounds g (candidate g Up) := by
      intro h
      have h1 : (0 : Int) ≤ g.Player.R + (dirDelta Up).1 := h.1
      rw [hp] at h1
      revert h1
      decide
    have hrun : run g (List.replicate (n + 1) Up) =
        run { g with Facing := Up, Steps := wrapInt (g.Steps + 1), Won := true }
          (List.replicate n Up) := by
      show run g (Up :: List.replicate n Up) = _
      rw [run_cons, TryMove_off g Up hout]
    rw [hrun]
    obtain ⟨i1, i2⟩ := ih { g with Facing := Up, Steps := wrapInt (g.Steps + 1), Won := true }
      hp (wrapInt_isInt64 _)
    refine ⟨?_, i2⟩
    rw [i1]
    show wrapInt (wrapInt (g.Steps + 1) + (n : Int)) = wrapInt (g.Steps + ((n + 1 : Nat) : Int))
    rw [wrapInt_add]
    congr 1
    push_cast
    omega

/-- C14: `parseCommandToDir` maps w/W to Up, d/D to Right, s/S to Down and a/A to Left
with ok true, returns ok false for every other byte, and so gives the same result for the
upper-case and the lower-case form of every letter. -/
theorem C14_parse_command :
    (parseCommandToDir 'w'.toNat = (Up, true) ∧ parseCommandToDir 'W'.toNat = (Up, true) ∧
      parseCommandToDir 'd'.toNat = (Right, true) ∧ parseCommandToDir 'D'.toNat = (Right, true) ∧
      parseCommandToDir 's'.toNat = (Down, true) ∧ parseCommandToDir 'S'.toNat = (Down, true) ∧
      parseCommandToDir 'a'.toNat = (Left, true) ∧ parseCommandToDir 'A'.toNat = (Left, true)) ∧
    (∀ ch : Nat, ch ∉ ['w', 'W', 'd', 'D', 's', 'S', 'a', 'A'].map Char.toNat →
      (parseCommandToDir ch).2 = false) ∧
    (∀ ch : Nat, 'A'.toNat ≤ ch → ch ≤ 'Z'.toNat →
      parseCommandToDir (ch + 32) = parseCommandToDir ch) := by
  refine ⟨by decide, ?_, ?_⟩
  · intro ch h
    simp only [List.map, List.mem_cons, List.mem_nil_iff, or_false, not_or] at h
    obtain ⟨h1, h2, h3, h4, h5, h6, h7, h8⟩ := h
    simp only [parseCommandToDir, if_neg (not_or.mpr ⟨h1, h2⟩), if_neg (not_or.mpr ⟨h3, h4⟩),
      if_neg (not_or.mpr ⟨h5, h6⟩), if_neg (not_or.mpr ⟨h7, h8⟩)]
  · intro ch h1 h2
    have h3 : 65 ≤ ch := h1
    have h4 : ch ≤ 90 := h2
    interval_cases ch <;> decide

/-- C14 at the letters d and q: upper and lower case agree. -/
theorem C14_parse_command_witness :
    parseCommandToDir ('D'.toNat + 32) = parseCommandToDir 'D'.toNat ∧
    parseCommandToDir ('Q'.toNat + 32) = parseCommandToDir 'Q'.toNat ∧
    (parseCommandToDir 'x'.toNat).2 = false :=
  ⟨C14_parse_command.2.2 'D'.toNat (by decide) (by decide),
    C14_parse_command.2.2 'Q'.toNat (by decide) (by decide),
    C14_parse_command.2.1 'x'.toNat (by decide)⟩

/-- C18, as stated, fails once the step counter is about to wrap: the walk Down, Up
repeated `2^62 - 1` times from `start2` reaches a state with `Won` false and
`Steps = 2^63 - 2`; there Down is a displacing move, and after Down then Up the counter is
`-2^63`, not `Steps + 2`. -/
theorem C18_counterexample :
    newGame lim64 2 quarter halves 5 6 = .ok start2 ∧
    (run start2 longWalk).Won = false ∧
    InBounds (run start2 longWalk) (candidate (run start2 longWalk) Down) ∧
    cellAt (run start2 longWalk).Grid (candidate (run start2 longWalk) Down).R
      (candidate (run start2 longWalk) Down).C = some '.' ∧
    (TryMove (TryMove (run start2 longWalk) Down).state (opposite Down)).state.Steps = minInt ∧
    (TryMove (TryMove (run start2 longWalk) Down).state (opposite Down)).state.Steps
      ≠ (run start2 longWalk).Steps + 2 := by
  obtain ⟨hinv, hp, hwon, hsteps⟩ := run_cycles 4611686018427387903 start2 start2_inv rfl rfl rfl
    rfl (by decide) (by decide)
  obtain ⟨hgrid, hrows, hcols⟩ := run_frame (cycles 4611686018427387903) start2
  have hsteps2 : (run start2 longWalk).Steps = 9223372036854775806 := by
    rw [show longWalk = cycles 4611686018427387903 from rfl, hsteps]
    decide
  have hcand : candidate (run start2 longWalk) Down = { R := 1, C := 1 } := by
    simp only [candidate, show longWalk = cycles 4611686018427387903 from rfl, hp]
    decide
  have hin : InBounds (run start2 longWalk) (candidate (run start2 longWalk) Down) := by
    rw [hcand]
    simp only [InBounds, show longWalk = cycles 4611686018427387903 from rfl, hrows, hcols]
    decide
  have hopen : cellAt (run start2 longWalk).Grid (candidate (run start2 longWalk) Down).R
      (candidate (run start2 longWalk) Down).C = some '.' := by
    rw [hcand, show longWalk = cycles 4611686018427387903 from rfl, hgrid]
    decide
  obtain ⟨_, h2, _⟩ := undo_of_inv (run start2 longWalk) Down hinv hin hopen
  have hfinal : (TryMove (TryMove (run start2 longWalk) Down).state (opposite Down)).state.Steps
      = wrapInt (wrapInt ((run start2 longWalk).Steps + 1) + 1) := by
    rw [h2]
  refine ⟨rfl, hwon, hin, hopen, ?_, ?_⟩
  · rw [hfinal, hsteps2]
    decide
  · rw [hfinal, hsteps2]
    decide

/-- C18 (amended): a successful step can be undone: in a state reached from a successful
`newGame` with `Won` false and a step counter of at most `2^63 - 3`, if the candidate cell of
`d` is in bounds and open, then `TryMove d` followed by `TryMove (opposite d)` leaves the
player on the original cell, with exactly two more steps and `Won` still false. -/
theorem C18_step_undone (lim : Nat) (size : Int) (density : F64) (draws : Nat → F64)
    (pick face : Nat) (g0 : Game) (hnew : newGame lim size density draws pick face = .ok g0)
    (ds : List Direction) (d : Direction) (hactive : (run g0 ds).Won = false)
    (hin : InBounds (run g0 ds) (candidate (run g0 ds) d))
    (hopen : cellAt (run g0 ds).Grid (candidate (run g0 ds) d).R (candidate (run g0 ds) d).C
      = some '.')
    (hsteps : (run g0 ds).Steps + 2 ≤ maxInt) :
    (TryMove (run g0 ds) d).state.Player = candidate (run g0 ds) d ∧
    (TryMove (TryMove (run g0 ds) d).state (opposite d)).state.Player = (run g0 ds).Player ∧
    (TryMove (TryMove (run g0 ds) d).state (opposite d)).state.Steps = (run g0 ds).Steps + 2 ∧
    (TryMove (TryMove (run g0 ds) d).state (opposite d)).state.Won = false ∧
    (dirDelta (opposite d)).1 = -(dirDelta d).1 ∧ (dirDelta (opposite d)).2 = -(dirDelta d).2 := by
  have hinv := run_inv ds g0 (newGame_inv lim size density draws pick face g0 hnew)
  have h0 := (newGame_ok lim size density draws pick face g0 hnew).2.2.2.1
  have hint : IsInt64 (run g0 ds).Steps := run_isInt64 ds g0 (by rw [h0]; decide)
  have hw1 : wrapInt ((run g0 ds).Steps + 1) = (run g0 ds).Steps + 1 :=
    wrapInt_eq _ ⟨by have := hint.1; unfold minInt at *; omega, by omega⟩
  have hw2 : wrapInt ((run g0 ds).Steps + 1 + 1) = (run g0 ds).Steps + 1 + 1 :=
    wrapInt_eq _ ⟨by have := hint.1; unfold minInt at *; omega, by omega⟩
  obtain ⟨h1, h2, _⟩ := undo_of_inv (run g0 ds) d hinv hin hopen
  rw [h2, h1, hw1, hw2]
  refine ⟨rfl, rfl, ?_, hactive, dirDelta_opposite d⟩
  show (run g0 ds).Steps + 1 + 1 = (run g0 ds).Steps + 2
  omega

/-- C18 (amended) on the 2x2 game `start2`: Down from (0,1), then Up. -/
theorem C18_step_undone_witness :
    newGame lim64 2 quarter halves 5 6 = .ok start2 ∧
    (TryMove (run start2 []) Down).state.Player = candidate (run start2 []) Down ∧
    (TryMove (TryMove (run start2 []) Down).state (opposite Down)).state.Player
      = (run start2 []).Player ∧
    (TryMove (TryMove (run start2 []) Down).state (opposite Down)).state.Steps
      = (run start2 []).Steps + 2 ∧
    (TryMove (TryMove (run start2 []) Down).state (opposite Down)).state.Won = false ∧
    (dirDelta (opposite Down)).1 = -(dirDelta Down).1 ∧
    (dirDelta (opposite Down)).2 = -(dirDelta Down).2 :=
  ⟨rfl, C18_step_undone lim64 2 quarter halves 5 6 start2 rfl [] Down (by decide) (by decide)
    (by decide) (by decide)⟩

/-- C19, as stated, fails for a sequence long enough to wrap the step counter: on the 1x1
game, `2^63` moves Up leave the player in place and the counter at `-2^63`, so the distance
0 from the initial position exceeds `Steps`. -/
theorem C19_counterexample :
    newGame lim64 1 F64.zero zeros 0 0 = .ok game1 ∧
    (run game1 (List.replicate 9223372036854775808 Up)).Steps = minInt ∧
    ¬ (manhattan (run game1 (List.replicate 9223372036854775808 Up)).Player game1.Player
        ≤ (run game1 (List.replicate 9223372036854775808 Up)).Steps) := by
  obtain ⟨h1, h2⟩ := run_ups 9223372036854775808 game1 rfl (by decide)
  have hsteps : (run game1 (List.replicate 9223372036854775808 Up)).Steps = minInt := by
    rw [h1]
    decide
  refine ⟨rfl, hsteps, ?_⟩
  rw [hsteps, h2]
  decide

/-- C19 (amended): after a successful `newGame` and any sequence of `n <= 2^63 - 1` calls of
`TryMove`, the step counter is at most `n` and the Manhattan distance from the initial to the
final player position is at most the step counter. -/
theorem C19_steps_bound_distance (lim : Nat) (size : Int) (density : F64) (draws : Nat → F64)
    (pick face : Nat) (g0 : Game) (hnew : newGame lim size density draws pick face = .ok g0)
    (ds : List Direction) (hlen : (ds.length : Int) ≤ maxInt) :
    (run g0 ds).Steps ≤ ds.length ∧
    manhattan (run g0 ds).Player g0.Player ≤ (run g0 ds).Steps := by
  have h0 := (newGame_ok lim size density draws pick face g0 hnew).2.2.2.1
  obtain ⟨_, h1⟩ := run_steps_mono ds g0 (by omega) (by omega)
  have h2 := run_dist ds g0 (by omega) (by omega)
  exact ⟨by omega, by omega⟩

/-- C19 (amended) on the 2x2 game `start2` with the walk Down, Left, Left. -/
theorem C19_steps_bound_distance_witness :
    newGame lim64 2 quarter halves 5 6 = .ok start2 ∧
    (run start2 [Down, Left, Left]).Steps ≤ [Down, Left, Left].length ∧
    manhattan (run start2 [Down, Left, Left]).Player start2.Player
      ≤ (run start2 [Down, Left, Left]).Steps :=
  ⟨rfl, C19_steps_bound_distance lim64 2 quarter halves 5 6 start2 rfl [Down, Left, Left]
    (by decide)⟩

/-- C20: in any state and for any direction, `TryMove` leaves `Grid`, `Rows` and `Cols` as
they were, and so does any sequence of calls: layout and dimensions are fixed for the whole
game. -/
theorem C20_grid_fixed (g : Game) (d : Direction) :
    ((TryMove g d).state.Grid = g.Grid ∧ (TryMove g d).state.Rows = g.Rows ∧
      (TryMove g d).state.Cols = g.Cols) ∧
    (∀ ds : List Direction, (run g ds).Grid = g.Grid ∧ (run g ds).Rows = g.Rows ∧
      (run g ds).Cols = g.Cols) :=
  ⟨TryMove_frame g d, fun ds => run_frame ds g⟩

/-! ## The later claims: placement, generation, listing of the open cells -/

/-- An open cell of a row is listed for that row. -/
theorem emptyCellsRow_complete (r : Nat) :
    ∀ (row : List Char) (c0 j : Nat), row.get? j = some '.' →
      ({ R := (r : Int), C := ((c0 + j : Nat) : Int) } : Point) ∈ emptyCellsRow r row c0 := by
  intro row
  induction row with
  | nil => intro c0 j h; simp at h
  | cons ch rest ih =>
    intro c0 j h
    cases j with
    | zero =>
      have hch : ch = '.' := by simpa using h
      simp [emptyCellsRow, hch]
    | succ j =>
      have hrest : rest.get? j = some '.' := by simpa using h
      have hmem := ih (c0 + 1) j hrest
      rw [show c0 + 1 + j = c0 + (j + 1) by omega] at hmem
      simp only [emptyCellsRow]
      split_ifs
      · exact List.mem_cons_of_mem _ hmem
      · exact hmem

/-- An open cell of the grid is listed by the outer loop. -/
theorem emptyCellsFrom_complete :
    ∀ (grid : List (List Char)) (r0 i j : Nat) (row : List Char), grid.get? i = some row →
      row.get? j = some '.' →
      ({ R := ((r0 + i : Nat) : Int), C := (j : Int) } : Point) ∈ emptyCellsFrom grid r0 := by
  intro grid
  induction grid with
  | nil => intro r0 i j row h; simp at h
  | cons row0 rest ih =>
    intro r0 i j row hrow hget
    simp only [emptyCellsFrom, List.mem_append]
    cases i with
    | zero =>
      have h0 : row0 = row := by simpa using hrow
      subst h0
      left
      have := emptyCellsRow_complete r0 row0 0 j hget
      simpa using this
    | succ i =>
      right
      have hrest : rest.get? i = some row := by simpa using hrow
      have := ih (r0 + 1) i j row hrest hget
      rw [show r0 + 1 + i = r0 + (i + 1) by omega] at this
      exact this

/-- The points of `emptyCells` are exactly the positions that read as an open cell. -/
theorem mem_emptyCells_iff (grid : List (List Char)) (p : Point) :
    p ∈ emptyCells grid ↔ cellAt grid p.R p.C = some '.' := by
  constructor
  · exact cellAt_of_mem_emptyCells grid p
  · intro h
    unfold cellAt at h
    split_ifs at h with hn
    split at h
    · cases h
    · rename_i row hrow
      have := emptyCellsFrom_complete grid 0 p.R.toNat p.C.toNat row hrow h
      have hp : ({ R := ((0 + p.R.toNat : Nat) : Int), C := (p.C.toNat : Int) } : Point) = p := by
        cases p with
        | mk R C =>
          simp only [Point.mk.injEq] at hn ⊢
          omega
      rw [hp] at this
      exact this

/-- The list `emptyCells` is empty exactly when the grid holds no open cell. -/
theorem emptyCells_eq_nil_iff (grid : List (List Char)) :
    emptyCells grid = [] ↔ ∀ row ∈ grid, ∀ ch ∈ row, ch ≠ '.' := by
  constructor
  · intro h row hrow ch hch hdot
    subst hdot
    obtain ⟨i, hi⟩ := List.mem_iff_get?.mp hrow
    obtain ⟨j, hj⟩ := List.mem_iff_get?.mp hch
    have := emptyCellsFrom_complete grid 0 i j row hi hj
    unfold emptyCells at h
    rw [h] at this
    exact absurd this (List.not_mem_nil _)
  · intro h
    exact emptyCellsFrom_eq_nil grid 0 h

/-- The points listed for one row come in increasing column order. -/
theorem emptyCellsRow_sorted (r : Nat) :
    ∀ (row : List Char) (c0 : Nat), List.Pairwise Point.before (emptyCellsRow r row c0) := by
  intro row
  induction row with
  | nil => intro c0; exact List.Pairwise.nil
  | cons ch rest ih =>
    intro c0
    simp only [emptyCellsRow]
    split_ifs
    · refine List.pairwise_cons.mpr ⟨?_, ih (c0 + 1)⟩
      intro q hq
      obtain ⟨hr, j, hj, _⟩ := mem_emptyCellsRow r rest (c0 + 1) q hq
      right
      refine ⟨hr.symm, ?_⟩
      show ((c0 : Nat) : Int) < q.C
      omega
    · exact ih (c0 + 1)

/-- The points listed by the outer loop come in row-major order. -/
theorem emptyCellsFrom_sorted :
    ∀ (grid : List (List Char)) (r0 : Nat), List.Pairwise Point.before (emptyCellsFrom grid r0) := by
  intro grid
  induction grid with
  | nil => intro r0; exact List.Pairwise.nil
  | cons row rest ih =>
    intro r0
    simp only [emptyCellsFrom]
    refine List.pairwise_append.mpr ⟨emptyCellsRow_sorted r0 row 0, ih (r0 + 1), ?_⟩
    intro p hp q hq
    obtain ⟨hr, _⟩ := mem_emptyCellsRow r0 row 0 p hp
    obtain ⟨i, _, _, hqr, _⟩ := mem_emptyCellsFrom rest (r0 + 1) q hq
    left
    omega

theorem Point.before_irrefl (p : Point) : ¬ Point.before p p := by
  unfold Point.before
  omega

theorem genRow_get (density : F64) (draws : Nat → F64) :
    ∀ n k j : Nat, j < n →
      (genRow density draws n k).get? j =
        some (if F64.lt (draws (k + j)) density then '#' else '.') := by
  intro n
  induction n with
  | zero => intro k j h; omega
  | succ n ih =>
    intro k j h
    cases j with
    | zero => simp [genRow]
    | succ j =>
      have := ih (k + 1) j (by omega)
      rw [show k + 1 + j = k + (j + 1) by omega] at this
      simpa [genRow] using this

theorem genRows_get (density : F64) (draws : Nat → F64) (size : Nat) :
    ∀ m k i : Nat, i < m →
      (genRows density draws size m k).get? i = some (genRow density draws size (k + i * size)) := by
  intro m
  induction m with
  | zero => intro k i h; omega
  | succ m ih =>
    intro k i h
    cases i with
    | zero => simp [genRows]
    | succ i =>
      have := ih (k + size) i (by omega)
      rw [show k + size + i * size = k + (i + 1) * size by ring] at this
      simpa [genRows] using this

/-- The two ways `randomPlayerPlacement` ends: the no-open-cell error when `emptyCells` is
empty, and otherwise one of the `emptyCells` with a direction below 4. -/
theorem randomPlayerPlacement_cases (grid : List (List Char)) (pick face : Nat) :
    (emptyCells grid = [] ∧ randomPlayerPlacement grid pick face = .error .noEmptyCells) ∨
    (∃ pos, pos ∈ emptyCells grid ∧
      randomPlayerPlacement grid pick face = .ok (pos, ((Intn face 4 : Nat) : Int))) := by
  by_cases hlen : (emptyCells grid).length = 0
  · left
    refine ⟨List.length_eq_zero.mp hlen, ?_⟩
    simp only [randomPlayerPlacement, if_pos hlen]
  · right
    have hlt : Intn pick (emptyCells grid).length < (emptyCells grid).length :=
      Nat.mod_lt _ (Nat.pos_of_ne_zero hlen)
    refine ⟨(emptyCells grid).get ⟨_, hlt⟩, List.get_mem _ _ _, ?_⟩
    simp only [randomPlayerPlacement, if_neg hlen, List.get?_eq_get hlt]

theorem named_of_lt_four (n : Nat) (h : n < 4) : Direction.Named ((n : Nat) : Int) := by
  interval_cases n <;> decide

/-- C11: `randomPlayerPlacement` returns an error exactly when no cell of the grid is open,
and that error is the no-open-cell one; when it succeeds the position is in bounds and
indexes an open cell of the grid, and the facing is one of Up, Right, Down, Left. -/
theorem C11_placement (grid : List (List Char)) (pick face : Nat) :
    ((∃ e, randomPlayerPlacement grid pick face = .error e) ↔
      ∀ row ∈ grid, ∀ ch ∈ row, ch ≠ '.') ∧
    (∀ e, randomPlayerPlacement grid pick face = .error e → e = .noEmptyCells) ∧
    (∀ pos dir, randomPlayerPlacement grid pick face = .ok (pos, dir) →
      (0 ≤ pos.R ∧ pos.R < grid.length ∧ 0 ≤ pos.C ∧
        ∃ row, grid.get? pos.R.toNat = some row ∧ pos.C < row.length) ∧
      cellAt grid pos.R pos.C = some '.' ∧ Direction.Named dir) := by
  refine ⟨?_, ?_, ?_⟩
  · rw [← emptyCells_eq_nil_iff]
    rcases randomPlayerPlacement_cases grid pick face with ⟨h1, h2⟩ | ⟨pos, h1, h2⟩
    · exact ⟨fun _ => h1, fun _ => ⟨_, h2⟩⟩
    · constructor
      · rintro ⟨e, he⟩
        rw [h2] at he
        cases he
      · intro hnil
        rw [hnil] at h1
        exact absurd h1 (List.not_mem_nil _)
  · intro e he
    rcases randomPlayerPlacement_cases grid pick face with ⟨_, h2⟩ | ⟨pos, _, h2⟩
    · rw [h2] at he
      cases he
      rfl
    · rw [h2] at he
      cases he
  · intro pos dir hok
    obtain ⟨hmem, hdir⟩ := randomPlayerPlacement_ok grid pick face pos dir hok
    have hcell := cellAt_of_mem_emptyCells grid pos hmem
    obtain ⟨i, j, row, hr, hc, hrow, hget⟩ := mem_emptyCellsFrom grid 0 pos hmem
    obtain ⟨hj, _⟩ := List.get?_eq_some.mp hget
    obtain ⟨hi, _⟩ := List.get?_eq_some.mp hrow
    have hi2 : pos.R.toNat = i := by omega
    refine ⟨⟨by omega, by omega, by omega, row, by rw [hi2]; exact hrow, by omega⟩, hcell, ?_⟩
    rw [hdir]
    exact named_of_lt_four _ (Nat.mod_lt _ (by decide))

/-- C11 on a 2x2 grid with open cells on the diagonal, and on a fully blocked grid. -/
theorem C11_placement_witness :
    randomPlayerPlacement [['.', '#'], ['#', '.']] 1 6 = .ok ({ R := 1, C := 1 }, Down) ∧
    cellAt [['.', '#'], ['#', '.']] 1 1 = some '.' ∧ Direction.Named Down ∧
    (∃ e, randomPlayerPlacement [['#', '#'], ['#', '#']] 1 6 = .error e) :=
  ⟨rfl,
    ((C11_placement [['.', '#'], ['#', '.']] 1 6).2.2 { R := 1, C := 1 } Down rfl).2.1,
    ((C11_placement [['.', '#'], ['#', '.']] 1 6).2.2 { R := 1, C := 1 } Down rfl).2.2,
    (C11_placement [['#', '#'], ['#', '#']] 1 6).1.mpr (by decide)⟩

/-- The cases of `newGame`: the size error, the stop inside `make` for a size beyond the
allocation limit, the placement error on a grid without open cell, or a game built on the
generated grid. -/
theorem newGame_cases (lim : Nat) (size : Int) (density : F64) (draws : Nat → F64)
    (pick face : Nat) :
    (size ≤ 0 ∧ newGame lim size density draws pick face = .error .invalidGridSize) ∨
    (0 < size ∧ size > (lim : Int) ∧ generateGrid lim size density draws = none ∧
      newGame lim size density draws pick face = .error .runtimePanic) ∨
    (0 < size ∧ size ≤ (lim : Int) ∧ ∃ grid, generateGrid lim size density draws = some grid ∧
      ((emptyCells grid = [] ∧ newGame lim size density draws pick face = .error .noEmptyCells) ∨
       (emptyCells grid ≠ [] ∧ ∃ pos, pos ∈ emptyCells grid ∧
          newGame lim size density draws pick face =
            .ok { Grid := grid, Player := pos, Facing := ((Intn face 4 : Nat) : Int), Steps := 0,
                  Won := false, Rows := size, Cols := size }))) := by
  by_cases hs : size ≤ 0
  · left
    exact ⟨hs, by simp only [newGame, if_pos hs]⟩
  · right
    by_cases hl : size > (lim : Int)
    · left
      have hnone : generateGrid lim size density draws = none := by
        simp only [generateGrid, if_pos (Or.inr hl : size < 0 ∨ size > (lim : Int))]
      exact ⟨by omega, hl, hnone, by simp only [newGame, if_neg hs, hnone]⟩
    · right
      have hs2 : ¬ (size < 0 ∨ size > (lim : Int)) := by omega
      have hgrid : generateGrid lim size density draws =
          some (genRows (clampDensity density) draws size.toNat size.toNat 0) := by
        simp only [generateGrid, if_neg hs2]
      refine ⟨by omega, by omega, _, hgrid, ?_⟩
      rcases randomPlayerPlacement_cases
        (genRows (clampDensity density) draws size.toNat size.toNat 0) pick face with
        ⟨h1, h2⟩ | ⟨pos, h1, h2⟩
      · left
        exact ⟨h1, by simp only [newGame, if_neg hs, hgrid, h2]⟩
      · right
        exact ⟨List.ne_nil_of_mem h1, pos, h1, by simp only [newGame, if_neg hs, hgrid, h2]⟩

/-- C12, as stated, fails for a size `make` cannot allocate: at size `2^62`, with the
allocation limit of a 64-bit platform, the size is positive and no grid is generated, so
the error condition of the claim is false, yet `newGame` returns no state: it ends in the
runtime panic of `make`. -/
theorem C12_counterexample :
    ¬ ((4611686018427387904 : Int) ≤ 0 ∨
        ∃ grid, generateGrid lim64 4611686018427387904 quarter halves = some grid ∧
          ∀ row ∈ grid, ∀ ch ∈ row, ch ≠ '.') ∧
    (¬ ∃ g, newGame lim64 4611686018427387904 quarter halves 5 6 = .ok g) ∧
    newGame lim64 4611686018427387904 quarter halves 5 6 = .error .runtimePanic := by
  have hnone : generateGrid lim64 4611686018427387904 quarter halves = none := by decide
  have hpanic : newGame lim64 4611686018427387904 quarter halves 5 6 = .error .runtimePanic :=
    rfl
  refine ⟨?_, ?_, hpanic⟩
  · rintro (h | ⟨grid, hgrid, _⟩)
    · revert h
      decide
    · rw [hnone] at hgrid
      cases hgrid
  · rintro ⟨g, hg⟩
    rw [hpanic] at hg
    cases hg

/-- C12 (amended): `newGame size density` returns an error exactly when `size <= 0` or the
generated grid has no open cell (the size error in the first case, the no-open-cell error in
the second); otherwise, for a size `make` can allocate (`size <= lim`), it returns a state
with `Steps = 0`, `Won = false`, `Rows = Cols = size`, the generated `size x size` grid, and
the player on an open cell; for a larger size it returns nothing: `make` stops the program. -/
theorem C12_newGame_result (lim : Nat) (size : Int) (density : F64) (draws : Nat → F64)
    (pick face : Nat) :
    ((newGame lim size density draws pick face = .error .invalidGridSize ∨
        newGame lim size density draws pick face = .error .noEmptyCells) ↔
      (size ≤ 0 ∨ ∃ grid, generateGrid lim size density draws = some grid ∧
        ∀ row ∈ grid, ∀ ch ∈ row, ch ≠ '.')) ∧
    (size ≤ 0 → newGame lim size density draws pick face = .error .invalidGridSize) ∧
    (0 < size → (∃ grid, generateGrid lim size density draws = some grid ∧
        ∀ row ∈ grid, ∀ ch ∈ row, ch ≠ '.') →
      newGame lim size density draws pick face = .error .noEmptyCells) ∧
    (size ≤ (lim : Int) →
      ((∃ g, newGame lim size density draws pick face = .ok g) ↔
        ¬ (size ≤ 0 ∨ ∃ grid, generateGrid lim size density draws = some grid ∧
          ∀ row ∈ grid, ∀ ch ∈ row, ch ≠ '.'))) ∧
    (∀ g, newGame lim size density draws pick face = .ok g →
      g.Steps = 0 ∧ g.Won = false ∧ g.Rows = size ∧ g.Cols = size ∧
      generateGrid lim size density draws = some g.Grid ∧
      (g.Grid.length : Int) = size ∧ (∀ row ∈ g.Grid, (row.length : Int) = size) ∧
      cellAt g.Grid g.Player.R g.Player.C = some '.') ∧
    (0 < size → size > (lim : Int) →
      newGame lim size density draws pick face = .error .runtimePanic) := by
  have hcases := newGame_cases lim size density draws pick face
  refine ⟨?_, ?_, ?_, ?_, ?_, ?_⟩
  · rcases hcases with ⟨hs, h⟩ | ⟨hs, _, hnone, h⟩ |
      ⟨hs, _, grid, hgrid, ⟨hnil, h⟩ | ⟨hne, pos, _, h⟩⟩
    · exact ⟨fun _ => Or.inl hs, fun _ => Or.inl h⟩
    · constructor
      · rintro (he | he)
        · rw [h] at he
          cases he
        · rw [h] at he
          cases he
      · rintro (h1 | ⟨grid1, hgrid1, _⟩)
        · omega
        · rw [hnone] at hgrid1
          cases hgrid1
    · exact ⟨fun _ => Or.inr ⟨grid, hgrid, (emptyCells_eq_nil_iff grid).mp hnil⟩,
        fun _ => Or.inr h⟩
    · constructor
      · rintro (he | he)
        · rw [h] at he
          cases he
        · rw [h] at he
          cases he
      · rintro (h1 | ⟨grid1, hgrid1, hno⟩)
        · omega
        · rw [hgrid] at hgrid1
          cases hgrid1
          exact absurd ((emptyCells_eq_nil_iff _).mpr hno) hne
  · intro hs
    simp only [newGame, if_pos hs]
  · rintro hs ⟨grid1, hgrid1, hno⟩
    rcases hcases with ⟨hs1, _⟩ | ⟨_, _, hnone, _⟩ |
      ⟨_, _, grid, hgrid, ⟨_, h⟩ | ⟨hne, _, _, _⟩⟩
    · omega
    · rw [hnone] at hgrid1
      cases hgrid1
    · exact h
    · rw [hgrid] at hgrid1
      cases hgrid1
      exact absurd ((emptyCells_eq_nil_iff _).mpr hno) hne
  · intro hlim
    rcases hcases with ⟨hs, h⟩ | ⟨hs, hl, _, _⟩ |
      ⟨hs, _, grid, hgrid, ⟨hnil, h⟩ | ⟨hne, pos, _, h⟩⟩
    · constructor
      · rintro ⟨g, hg⟩
        rw [h] at hg
        cases hg
      · intro hn
        exact absurd (Or.inl hs) hn
    · omega
    · constructor
      · rintro ⟨g, hg⟩
        rw [h] at hg
        cases hg
      · intro hn
        exact absurd (Or.inr ⟨grid, hgrid, (emptyCells_eq_nil_iff grid).mp hnil⟩) hn
    · refine ⟨fun _ => ?_, fun _ => ⟨_, h⟩⟩
      rintro (h1 | ⟨grid1, hgrid1, hno⟩)
      · omega
      · rw [hgrid] at hgrid1
        cases hgrid1
        exact absurd ((emptyCells_eq_nil_iff _).mpr hno) hne
  · intro g hg
    obtain ⟨_, hgrid, _, h1, h2, h3, h4⟩ := newGame_ok lim size density draws pick face g hg
    obtain ⟨hlen, hshape⟩ := generateGrid_shape lim size density draws g.Grid hgrid
    exact ⟨h1, h2, h3, h4, hgrid, hlen, fun row hrow => (hshape row hrow).1,
      (newGame_inv lim size density draws pick face g hg).2.2⟩
  · intro hs hl
    rcases hcases with ⟨hs1, _⟩ | ⟨_, _, _, h⟩ | ⟨_, hl1, _⟩
    · omega
    · exact h
    · omega

/-- C12 (amended) at three inputs: size 0, size 2 at density 1, and size 2 at density one
quarter. -/
theorem C12_newGame_result_witness :
    newGame lim64 0 quarter halves 5 6 = .error .invalidGridSize ∧
    newGame lim64 2 F64.one halves 5 6 = .error .noEmptyCells ∧
    newGame lim64 2 quarter halves 5 6 = .ok start2 ∧
    (start2.Steps = 0 ∧ start2.Won = false ∧ start2.Rows = 2 ∧ start2.Cols = 2 ∧
      generateGrid lim64 2 quarter halves = some start2.Grid ∧
      (start2.Grid.length : Int) = 2 ∧ (∀ row ∈ start2.Grid, (row.length : Int) = 2) ∧
      cellAt start2.Grid start2.Player.R start2.Player.C = some '.') ∧
    (∃ g, newGame lim64 2 quarter halves 5 6 = .ok g) :=
  ⟨(C12_newGame_result lim64 0 quarter halves 5 6).2.1 (by decide),
    (C12_newGame_result lim64 2 F64.one halves 5 6).2.2.1 (by decide)
      ⟨[['#', '#'], ['#', '#']], by decide, by decide⟩,
    rfl, (C12_newGame_result lim64 2 quarter halves 5 6).2.2.2.2.1 start2 rfl,
    ((C12_newGame_result lim64 2 quarter halves 5 6).2.2.2.1 (by decide)).mpr (by
      rintro (h | ⟨grid, hgrid, hno⟩)
      · revert h
        decide
      · have hg : generateGrid lim64 2 quarter halves = some [['.', '.'], ['.', '.']] := by
          decide
        rw [hg] at hgrid
        cases hgrid
        exact hno ['.', '.'] (by decide) '.' (by decide) rfl)⟩

/-- C15, as stated, fails for a size `make` cannot allocate: at size `2^62`, with the
allocation limit of a 64-bit platform, `generateGrid` returns no grid. -/
theorem C15_counterexample :
    (0 : Int) ≤ 4611686018427387904 ∧
    generateGrid lim64 4611686018427387904 quarter halves = none ∧
    ¬ ∃ grid, generateGrid lim64 4611686018427387904 quarter halves = some grid := by
  have hnone : generateGrid lim64 4611686018427387904 quarter halves = none := by decide
  refine ⟨by decide, hnone, ?_⟩
  rintro ⟨grid, hgrid⟩
  rw [hnone] at hgrid
  cases hgrid

/-- C15 (amended): for every size with `0 <= size <= lim` (a size `make` can allocate), every
density and every sequence of draws, `generateGrid` returns
exactly `size` rows of exactly `size` cells, each `'#'` or `'.'`, and cell `(i, j)` is
`'#'` exactly when draw number `i * size + j` is strictly below the clamped density. -/
theorem C15_generated_grid (lim : Nat) (size : Int) (density : F64) (draws : Nat → F64) (hsize : 0 ≤ size)
    (hlim : size ≤ (lim : Int)) :
    ∃ grid, generateGrid lim size density draws = some grid ∧
      (grid.length : Int) = size ∧
      (∀ row ∈ grid, (row.length : Int) = size ∧ ∀ ch ∈ row, ch = '#' ∨ ch = '.') ∧
      (∀ i j : Nat, (i : Int) < size → (j : Int) < size →
        ∃ ch, cellAt grid i j = some ch ∧ (ch = '#' ∨ ch = '.') ∧
          (ch = '#' ↔ F64.lt (draws (i * size.toNat + j)) (clampDensity density) = true)) := by
  have hs : ¬ (size < 0 ∨ size > (lim : Int)) := by omega
  have hgrid : generateGrid lim size density draws =
      some (genRows (clampDensity density) draws size.toNat size.toNat 0) := by
    simp only [generateGrid, if_neg hs]
  obtain ⟨hlen, hshape⟩ := generateGrid_shape lim size density draws _ hgrid
  refine ⟨_, hgrid, hlen, hshape, ?_⟩
  intro i j hi hj
  have hrow := genRows_get (clampDensity density) draws size.toNat size.toNat 0 i (by omega)
  have hcell := genRow_get (clampDensity density) draws size.toNat (0 + i * size.toNat) j
    (by omega)
  rw [Nat.zero_add] at hrow hcell
  have hn : ¬ ((i : Int) < 0 ∨ (j : Int) < 0) := by omega
  refine ⟨if F64.lt (draws (i * size.toNat + j)) (clampDensity density) then '#' else '.',
    ?_, ?_, ?_⟩
  · simp only [cellAt, if_neg hn, Int.toNat_ofNat, hrow, hcell]
  · split_ifs
    · exact Or.inl rfl
    · exact Or.inr rfl
  · split_ifs with h
    · simp [h]
    · simp [h]

/-- C15 (amended) at size 2, density one quarter, every draw one half: all four cells are open. -/
theorem C15_generated_grid_witness :
    ∃ grid, generateGrid lim64 2 quarter halves = some grid ∧
      (grid.length : Int) = 2 ∧
      (∀ row ∈ grid, (row.length : Int) = 2 ∧ ∀ ch ∈ row, ch = '#' ∨ ch = '.') ∧
      (∀ i j : Nat, (i : Int) < 2 → (j : Int) < 2 →
        ∃ ch, cellAt grid i j = some ch ∧ (ch = '#' ∨ ch = '.') ∧
          (ch = '#' ↔ F64.lt (halves (i * (2 : Int).toNat + j)) (clampDensity quarter) = true)) :=
  C15_generated_grid lim64 2 quarter halves (by decide) (by decide)

/-- C16: for every grid, `emptyCells` lists exactly the positions whose cell is `'.'`, each
once, in row-major order (strictly increasing by row, then by column). -/
theorem C16_emptyCells (grid : List (List Char)) :
    (∀ p : Point, p ∈ emptyCells grid ↔ cellAt grid p.R p.C = some '.') ∧
    (emptyCells grid).Nodup ∧
    List.Pairwise Point.before (emptyCells grid) := by
  have hsorted : List.Pairwise Point.before (emptyCells grid) := emptyCellsFrom_sorted grid 0
  refine ⟨mem_emptyCells_iff grid, ?_, hsorted⟩
  refine List.Pairwise.imp ?_ hsorted
  intro p q hpq heq
  subst heq
  exact Point.before_irrefl p hpq

/-! ## The later claims: rendering and the absence of runtime errors -/

/-- Copying a full-width row into a fresh line of the same width gives the row. -/
theorem copyInto_full (row : List Char) (n : Nat) (z : Char) (h : row.length = n) :
    copyInto (List.replicate n z) row = row := by
  subst h
  simp [copyInto]

/-- The loop of `render` on rows of width `Cols`, the player column being in range: it
reaches the footer, and prints each row with the player cell overwritten. -/
theorem renderRows_spec (g : Game) (hc : 0 ≤ g.Player.C ∧ g.Player.C < g.Cols) :
    ∀ (rows : List (List Char)) (r : Nat), (∀ row ∈ rows, (row.length : Int) = g.Cols) →
      (renderRows g rows r).footer = some g.Steps ∧
      (renderRows g rows r).rows.length = rows.length ∧
      ∀ (i : Nat) (row : List Char), rows.get? i = some row →
        (renderRows g rows r).rows.get? i =
          some (if ((r + i : Nat) : Int) = g.Player.R
            then row.set g.Player.C.toNat (dirRunes g.Facing) else row) := by
  intro rows
  induction rows with
  | nil =>
    intro r _
    refine ⟨rfl, rfl, ?_⟩
    intro i row h
    simp at h
  | cons row0 rest ih =>
    intro r hrows
    have hcols : ¬ g.Cols < 0 := by omega
    have hcol : ¬ (g.Player.C < 0 ∨ g.Player.C ≥ g.Cols) := by omega
    have hlen : row0.length = g.Cols.toNat := by
      have := hrows row0 (List.mem_cons_self _ _)
      omega
    obtain ⟨ih1, ih2, ih3⟩ := ih (r + 1) (fun x hx => hrows x (List.mem_cons_of_mem _ hx))
    have hstep : ∀ (i : Nat) (row : List Char), (row0 :: rest).get? i = some row →
        ((if ((r : Nat) : Int) = g.Player.R
            then row0.set g.Player.C.toNat (dirRunes g.Facing) else row0) ::
          (renderRows g rest (r + 1)).rows).get? i =
          some (if ((r + i : Nat) : Int) = g.Player.R
            then row.set g.Player.C.toNat (dirRunes g.Facing) else row) := by
      intro i row hi
      cases i with
      | zero =>
        have h0 : row0 = row := by simpa using hi
        subst h0
        simp
      | succ i =>
        have hrest : rest.get? i = some row := by simpa using hi
        have := ih3 i row hrest
        rw [show r + 1 + i = r + (i + 1) by omega] at this
        simpa using this
    simp only [renderRows, if_neg hcols, if_neg hcol, copyInto_full row0 _ _ hlen]
    by_cases hr : ((r : Nat) : Int) = g.Player.R
    · simp only [if_pos hr]
      refine ⟨ih1, by simp [ih2], ?_⟩
      intro i row hi
      have := hstep i row hi
      rw [if_pos hr] at this
      exact this
    · simp only [if_neg hr]
      refine ⟨ih1, by simp [ih2], ?_⟩
      intro i row hi
      have := hstep i row hi
      rw [if_neg hr] at this
      exact this

/-- On a well-formed state `render` reaches its footer and prints the grid with the player
cell overwritten by the glyph of `Facing`. -/
theorem render_spec (g : Game) (hwf : WellFormed g) :
    (render g).footer = some g.Steps ∧
    ((render g).rows.length : Int) = g.Rows ∧
    (∀ line ∈ (render g).rows, (line.length : Int) = g.Cols) ∧
    (∀ r c : Int, 0 ≤ r → r < g.Rows → 0 ≤ c → c < g.Cols →
      cellAt (render g).rows r c =
        if r = g.Player.R ∧ c = g.Player.C then some (dirRunes g.Facing)
        else cellAt g.Grid r c) := by
  obtain ⟨hlen, hrows, hb⟩ := hwf
  obtain ⟨h1, h2, h3⟩ := renderRows_spec g ⟨hb.2.2.1, hb.2.2.2⟩ g.Grid 0 hrows
  refine ⟨h1, ?_, ?_, ?_⟩
  · unfold render
    rw [h2]
    exact hlen
  · intro line hline
    obtain ⟨i, hi⟩ := List.mem_iff_get?.mp hline
    have hi2 : i < g.Grid.length := by
      rw [← h2]
      exact (List.get?_eq_some.mp hi).1
    have hrow := h3 i (g.Grid.get ⟨i, hi2⟩) (List.get?_eq_get hi2)
    have hw := hrows _ (List.get_mem g.Grid i hi2)
    unfold render at hi
    rw [hrow] at hi
    cases hi
    split_ifs
    · rw [List.length_set]; exact hw
    · exact hw
  · intro r c hr0 hr1 hc0 hc1
    have hn : ¬ (r < 0 ∨ c < 0) := by omega
    have hi2 : r.toNat < g.Grid.length := by omega
    have hget : g.Grid.get? r.toNat = some (g.Grid.get ⟨r.toNat, hi2⟩) := List.get?_eq_get hi2
    have hrow := h3 r.toNat _ hget
    have hw := hrows _ (List.get_mem g.Grid r.toNat hi2)
    have hcast : ((0 + r.toNat : Nat) : Int) = r := by omega
    rw [hcast] at hrow
    have hrow2 : (render g).rows.get? r.toNat =
        some (if r = g.Player.R
          then (g.Grid.get ⟨r.toNat, hi2⟩).set g.Player.C.toNat (dirRunes g.Facing)
          else g.Grid.get ⟨r.toNat, hi2⟩) := hrow
    have hpc0 : 0 ≤ g.Player.C := hb.2.2.1
    have hpc1 : g.Player.C < g.Cols := hb.2.2.2
    generalize g.Grid.get ⟨r.toNat, hi2⟩ = row at hget hrow2 hw
    simp only [cellAt, if_neg hn, hrow2, hget]
    by_cases hrp : r = g.Player.R
    · by_cases hcp : c = g.Player.C
      · have hlt : g.Player.C.toNat < row.length := by omega
        simp [hrp, hcp, List.getElem?_set, hlt]
      · have hne : g.Player.C.toNat ≠ c.toNat := by omega
        simp [hrp, hcp, List.getElem?_set_ne hne]
    · simp [hrp]

/-- C13: for a well-formed state `render` prints exactly `Rows` grid rows, each exactly
`Cols` characters wide; the character at `(r, c)` is the glyph of `Facing` (`'^'` Up, `'>'`
Right, `'v'` Down, `'<'` Left) when `(r, c)` is the player position and the cell of the
grid otherwise. -/
theorem C13_render (g : Game) (hwf : WellFormed g) :
    (render g).footer = some g.Steps ∧
    ((render g).rows.length : Int) = g.Rows ∧
    (∀ line ∈ (render g).rows, (line.length : Int) = g.Cols) ∧
    (∀ r c : Int, 0 ≤ r → r < g.Rows → 0 ≤ c → c < g.Cols →
      cellAt (render g).rows r c =
        if r = g.Player.R ∧ c = g.Player.C then some (dirRunes g.Facing)
        else cellAt g.Grid r c) ∧
    (dirRunes Up = '^' ∧ dirRunes Right = '>' ∧ dirRunes Down = 'v' ∧ dirRunes Left = '<') := by
  obtain ⟨h1, h2, h3, h4⟩ := render_spec g hwf
  exact ⟨h1, h2, h3, h4, by decide, by decide, by decide, by decide⟩

/-- C13 on the 2x2 grid with a wall, the player at (0,0) facing Right. -/
theorem C13_render_witness :
    (render (TryMove wall2 Right).state).rows = [['>', '#'], ['.', '.']] ∧
    (render (TryMove wall2 Right).state).footer = some (TryMove wall2 Right).state.Steps ∧
    ((render (TryMove wall2 Right).state).rows.length : Int) = (TryMove wall2 Right).state.Rows ∧
    (∀ line ∈ (render (TryMove wall2 Right).state).rows,
      (line.length : Int) = (TryMove wall2 Right).state.Cols) ∧
    (∀ r c : Int, 0 ≤ r → r < (TryMove wall2 Right).state.Rows → 0 ≤ c →
      c < (TryMove wall2 Right).state.Cols →
      cellAt (render (TryMove wall2 Right).state).rows r c =
        if r = (TryMove wall2 Right).state.Player.R ∧ c = (TryMove wall2 Right).state.Player.C
        then some (dirRunes (TryMove wall2 Right).state.Facing)
        else cellAt (TryMove wall2 Right).state.Grid r c) ∧
    (dirRunes Up = '^' ∧ dirRunes Right = '>' ∧ dirRunes Down = 'v' ∧ dirRunes Left = '<') :=
  ⟨by decide, C13_render (TryMove wall2 Right).state (by decide)⟩

/-- C17: no runtime error during play: in every state reached from a successful `newGame`
and for every direction, `TryMove` does not panic: the grid is read only at a candidate
found within `[0,Rows) x [0,Cols)`, where the read succeeds, and never for a candidate
outside; and `render` does not panic: its write at column `Player.C` is within the line of
width `Cols`. -/
theorem C17_no_runtime_error (lim : Nat) (size : Int) (density : F64) (draws : Nat → F64) (pick face : Nat)
    (g0 : Game) (hnew : newGame lim size density draws pick face = .ok g0) (ds : List Direction)
    (d : Direction) :
    (TryMove (run g0 ds) d).panicked = false ∧
    (InBounds (run g0 ds) (candidate (run g0 ds) d) →
      ∃ ch, cellAt (run g0 ds).Grid (candidate (run g0 ds) d).R (candidate (run g0 ds) d).C
        = some ch) ∧
    (∀ g : Game, ¬ InBounds g (candidate g d) → (TryMove g d).panicked = false) ∧
    (0 ≤ (run g0 ds).Player.C ∧ (run g0 ds).Player.C < (run g0 ds).Cols) ∧
    (∀ line ∈ (render (run g0 ds)).rows, (line.length : Int) = (run g0 ds).Cols) ∧
    (render (run g0 ds)).footer = some (run g0 ds).Steps := by
  have hinv := run_inv ds g0 (newGame_inv lim size density draws pick face g0 hnew)
  obtain ⟨h1, _, h3, _⟩ := render_spec (run g0 ds) hinv.1
  refine ⟨(TryMove_inv _ d hinv).2, fun hin => cellAt_candidate _ d hinv.1 hin, ?_,
    ⟨hinv.1.2.2.2.2.1, hinv.1.2.2.2.2.2⟩, h3, h1⟩
  intro g hout
  rw [TryMove_off g d hout]

/-- C17 on the 2x2 game `start2` after the walk Down, Left, then moving Up. -/
theorem C17_no_runtime_error_witness :
    newGame lim64 2 quarter halves 5 6 = .ok start2 ∧
    (TryMove (run start2 [Down, Left]) Up).panicked = false ∧
    (InBounds (run start2 [Down, Left]) (candidate (run start2 [Down, Left]) Up) →
      ∃ ch, cellAt (run start2 [Down, Left]).Grid (candidate (run start2 [Down, Left]) Up).R
        (candidate (run start2 [Down, Left]) Up).C = some ch) ∧
    (∀ g : Game, ¬ InBounds g (candidate g Up) → (TryMove g Up).panicked = false) ∧
    (0 ≤ (run start2 [Down, Left]).Player.C ∧
      (run start2 [Down, Left]).Player.C < (run start2 [Down, Left]).Cols) ∧
    (∀ line ∈ (render (run start2 [Down, Left])).rows,
      (line.length : Int) = (run start2 [Down, Left]).Cols) ∧
    (render (run start2 [Down, Left])).footer = some (run start2 [Down, Left]).Steps :=
  ⟨rfl, C17_no_runtime_error lim64 2 quarter halves 5 6 start2 rfl [Down, Left] Up⟩

/-- C16 on a 2x3 grid: the three open cells, in row-major order. -/
theorem C16_emptyCells_witness :
    emptyCells [['.', '#', '.'], ['#', '.', '#']] =
      [{ R := 0, C := 0 }, { R := 0, C := 2 }, { R := 1, C := 1 }] ∧
    ({ R := 0, C := 2 } : Point) ∈ emptyCells [['.', '#', '.'], ['#', '.', '#']] ∧
    (emptyCells [['.', '#', '.'], ['#', '.', '#']]).Nodup ∧
    List.Pairwise Point.before (emptyCells [['.', '#', '.'], ['#', '.', '#']]) :=
  ⟨by decide,
    ((C16_emptyCells [['.', '#', '.'], ['#', '.', '#']]).1 { R := 0, C := 2 }).mpr (by decide),
    (C16_emptyCells [['.', '#', '.'], ['#', '.', '#']]).2⟩

end RuneSim
